import Mathlib

/-!
Verification development for the expression-evaluation core of a MySQL-compatible
query engine: the `IN` set-membership evaluators (`sql/expression/in.go`) and the
index-expression mini-parser combinators.

The Go source is shallowly embedded: expressions become an inductive tree, the
mutable `bufio.Reader` becomes explicit state passing over a `List Char`,
fallible Go functions return `Except Err`.  The `sql` package (type descriptors,
`Literal`, `GetField`, `Tuple`, `TransformUp`) is not part of the sampled
source, so those collaborators are modelled from the spec (section 3/4.1/4.2);
each such definition carries a doc comment saying so.
-/

namespace Gms

/-- A SQL runtime value.  Go values flowing through `Eval` are `interface\x7b\x7d`;
the model uses a closed sum of the kinds the embedded code produces: integers,
strings, booleans (the `IN` results) and tuples (rows of possibly-NULL values).
SQL NULL is `Option.none` at the use sites, mirroring Go `nil`. -/
inductive Val where
  | vInt (n : Int)
  | vStr (s : String)
  | vBool (b : Bool)
  | vTuple (vs : List (Option Val))
deriving Repr

/-- Modelled from the spec (section 3, Type descriptor): a scalar domain or a
tuple-of-N descriptor.  `tInt8`/`tInt64` stand for the integer family (narrow
and promoted representative), `tText` for the string family, `tNull` for the
type of a NULL literal. -/
inductive SqlType where
  | tInt8
  | tInt64
  | tText
  | tNull
  | tTuple (ts : List SqlType)
deriving Repr

/-- Modelled from the spec: `NumColumns()` is 1 for scalars, N for tuple-of-N.
(Go `sql.NumColumns` type-switches on `TupleType`; a `nil` type is not a
`TupleType`, hence also 1 — see `numColumnsOpt`.) -/
def SqlType.numColumns : SqlType → Nat
  | .tTuple ts => ts.length
  | _ => 1

/-- Go `sql.NumColumns` applied to a possibly-nil `sql.Type` interface value. -/
def numColumnsOpt : Option SqlType → Nat
  | none => 1
  | some t => t.numColumns

/-- Modelled from the spec: `Promote()` maps every member of a family to the
common representative used for cross-type comparison. -/
def SqlType.promote : SqlType → SqlType
  | .tInt8 => .tInt64
  | .tInt64 => .tInt64
  | .tText => .tText
  | .tNull => .tNull
  | .tTuple ts => .tTuple ts

/-- Errors surfaced by the embedded evaluators.  Go panics that the embedded
code can trigger (nil-interface method call, out-of-range row index) are
modelled as distinguished error values. -/
inductive Err where
  | convErr
  | valueNotNil
  | invalidOperandColumns (expected actual : Nat)
  | invalidChildrenNumber (got expected : Nat)
  | unsupportedInOperand
  | unsupportedHashInOperand
  | unsupportedHashInSubexpr
  | nilTypePanic
  | rowIndexPanic
deriving DecidableEq, Repr

/-- Modelled from the spec: decimal digit value of an ASCII character. -/
def digitVal? (c : Char) : Option Nat :=
  if c.isDigit then some (c.toNat - 48) else none

/-- Accumulating decimal parse of a digit run; `none` on any non-digit. -/
def natOfDigitsAux (acc : Nat) : List Char → Option Nat
  | [] => some acc
  | c :: cs =>
    match digitVal? c with
    | some d => natOfDigitsAux (acc * 10 + d) cs
    | none => none

/-- Modelled from the spec: the decimal integer-string parse used by the
integer descriptors' `Convert` (Go `strconv.ParseInt` via `cast.ToInt64E`);
non-numeric strings yield no value and hence a ConversionError. -/
def strToInt? (s : String) : Option Int :=
  match s.data with
  | [] => none
  | '-' :: cs => if cs = [] then none else (natOfDigitsAux 0 cs).map (fun n => -(n : Int))
  | cs => (natOfDigitsAux 0 cs).map (fun n => (n : Int))

/-- Lexicographic order on character lists (byte order of Go `strings.Compare`,
restricted to the model's character set). -/
def charListLt : List Char → List Char → Bool
  | [], [] => false
  | [], _ :: _ => true
  | _ :: _, [] => false
  | a :: as, b :: bs => if a < b then true else if b < a then false else charListLt as bs

mutual

/-- Modelled from the spec (section 4.1): `Convert(v)` re-represents `v` in the
receiver's domain and fails with a ConversionError when it cannot.  Following
the library convention the calling code relies on, `Convert(nil)` is `nil`
with no error (the NULL-typed descriptor instead rejects non-NULL values).
Integer conversion accepts numeric strings; the narrow `tInt8` range-checks. -/
def SqlType.convert : SqlType → Option Val → Except Err (Option Val)
  | _, none => .ok none
  | .tInt64, some (.vInt n) => .ok (some (.vInt n))
  | .tInt64, some (.vStr s) =>
    match strToInt? s with
    | some n => .ok (some (.vInt n))
    | none => .error .convErr
  | .tInt64, some _ => .error .convErr
  | .tInt8, some (.vInt n) =>
    if -128 ≤ n ∧ n ≤ 127 then .ok (some (.vInt n)) else .error .convErr
  | .tInt8, some (.vStr s) =>
    match strToInt? s with
    | some n => if -128 ≤ n ∧ n ≤ 127 then .ok (some (.vInt n)) else .error .convErr
    | none => .error .convErr
  | .tInt8, some _ => .error .convErr
  | .tText, some (.vInt n) => .ok (some (.vStr (toString n)))
  | .tText, some (.vStr s) => .ok (some (.vStr s))
  | .tText, some _ => .error .convErr
  | .tNull, some _ => .error .valueNotNil
  | .tTuple ts, some (.vTuple vs) =>
    if ts.length = vs.length then
      match convertElems ts vs with
      | .ok ws => .ok (some (.vTuple ws))
      | .error e => .error e
    else .error .convErr
  | .tTuple _, some _ => .error .convErr
termination_by structural t _v => t

/-- Element-wise conversion of a tuple value under a tuple descriptor. -/
def convertElems : List SqlType → List (Option Val) → Except Err (List (Option Val))
  | [], _ => .ok []
  | _, [] => .ok []
  | t :: ts, v :: vs =>
    match t.convert v with
    | .error e => .error e
    | .ok w =>
      match convertElems ts vs with
      | .error e => .error e
      | .ok ws => .ok (w :: ws)
termination_by structural ts _vs => ts

end

mutual

/-- Modelled from the spec (section 4.1) plus the library's null-comparison
convention the embedded loop relies on: a NULL never compares equal to a
non-NULL value.  Both inputs are expected to be `Convert`ed already; a kind
mismatch inside one scalar domain is a comparison error. -/
def SqlType.compareVals : SqlType → Option Val → Option Val → Except Err Int
  | _, none, none => .ok 0
  | _, none, some _ => .ok 1
  | _, some _, none => .ok (-1)
  | .tInt64, some (.vInt a), some (.vInt b) =>
    .ok (if a < b then -1 else if a = b then 0 else 1)
  | .tInt8, some (.vInt a), some (.vInt b) =>
    .ok (if a < b then -1 else if a = b then 0 else 1)
  | .tText, some (.vStr a), some (.vStr b) =>
    .ok (if a = b then 0 else if charListLt a.data b.data then -1 else 1)
  | .tTuple ts, some (.vTuple as), some (.vTuple bs) =>
    if ts.length = as.length ∧ ts.length = bs.length then compareElems ts as bs
    else .error .convErr
  | _, some _, some _ => .error .convErr
termination_by structural t _a _b => t

/-- Element-wise tuple comparison: first non-zero element verdict wins. -/
def compareElems : List SqlType → List (Option Val) → List (Option Val) → Except Err Int
  | [], _, _ => .ok 0
  | _, [], _ => .ok 0
  | _, _, [] => .ok 0
  | t :: ts, a :: as, b :: bs =>
    match t.compareVals a b with
    | .error e => .error e
    | .ok c => if c = 0 then compareElems ts as bs else .ok c
termination_by structural ts _as _bs => ts

end

mutual

/-- Boolean equality on values (used to build decidable equality for the
nested inductive). -/
def valBeq : Val → Val → Bool
  | .vInt a, .vInt b => a == b
  | .vStr a, .vStr b => a == b
  | .vBool a, .vBool b => a == b
  | .vTuple a, .vTuple b => ovalListBeq a b
  | _, _ => false
termination_by structural a _b => a

/-- Boolean equality on possibly-NULL values. -/
def ovalBeq : Option Val → Option Val → Bool
  | none, none => true
  | some a, some b => valBeq a b
  | _, _ => false
termination_by structural a _b => a

/-- Boolean equality on lists of possibly-NULL values. -/
def ovalListBeq : List (Option Val) → List (Option Val) → Bool
  | [], [] => true
  | a :: as, b :: bs => ovalBeq a b && ovalListBeq as bs
  | _, _ => false
termination_by structural a _b => a

end

mutual

theorem valBeq_iff : ∀ a b : Val, valBeq a b = true ↔ a = b
  | .vInt _, .vInt _ => by simp [valBeq]
  | .vInt _, .vStr _ => by simp [valBeq]
  | .vInt _, .vBool _ => by simp [valBeq]
  | .vInt _, .vTuple _ => by simp [valBeq]
  | .vStr _, .vInt _ => by simp [valBeq]
  | .vStr _, .vStr _ => by simp [valBeq]
  | .vStr _, .vBool _ => by simp [valBeq]
  | .vStr _, .vTuple _ => by simp [valBeq]
  | .vBool _, .vInt _ => by simp [valBeq]
  | .vBool _, .vStr _ => by simp [valBeq]
  | .vBool _, .vBool _ => by simp [valBeq]
  | .vBool _, .vTuple _ => by simp [valBeq]
  | .vTuple _, .vInt _ => by simp [valBeq]
  | .vTuple _, .vStr _ => by simp [valBeq]
  | .vTuple _, .vBool _ => by simp [valBeq]
  | .vTuple a, .vTuple b => by
    simp only [valBeq, Val.vTuple.injEq]
    exact ovalListBeq_iff a b
termination_by structural a _b => a

theorem ovalBeq_iff : ∀ a b : Option Val, ovalBeq a b = true ↔ a = b
  | none, none => by simp [ovalBeq]
  | none, some _ => by simp [ovalBeq]
  | some _, none => by simp [ovalBeq]
  | some a, some b => by
    simp only [ovalBeq, Option.some.injEq]
    exact valBeq_iff a b
termination_by structural a _b => a

theorem ovalListBeq_iff : ∀ a b : List (Option Val), ovalListBeq a b = true ↔ a = b
  | [], [] => by simp [ovalListBeq]
  | [], _ :: _ => by simp [ovalListBeq]
  | _ :: _, [] => by simp [ovalListBeq]
  | a :: as, b :: bs => by
    simp only [ovalListBeq, Bool.and_eq_true, List.cons.injEq]
    exact and_congr (ovalBeq_iff a b) (ovalListBeq_iff as bs)
termination_by structural a _b => a

end

instance : DecidableEq Val := fun a b => decidable_of_iff _ (valBeq_iff a b)

instance : DecidableEq (Option Val) := fun a b => decidable_of_iff _ (ovalBeq_iff a b)

mutual

/-- Boolean equality on type descriptors. -/
def typeBeq : SqlType → SqlType → Bool
  | .tInt8, .tInt8 => true
  | .tInt64, .tInt64 => true
  | .tText, .tText => true
  | .tNull, .tNull => true
  | .tTuple a, .tTuple b => typeListBeq a b
  | _, _ => false
termination_by structural a _b => a

/-- Boolean equality on lists of type descriptors. -/
def typeListBeq : List SqlType → List SqlType → Bool
  | [], [] => true
  | a :: as, b :: bs => typeBeq a b && typeListBeq as bs
  | _, _ => false
termination_by structural a _b => a

end

mutual

theorem typeBeq_iff : ∀ a b : SqlType, typeBeq a b = true ↔ a = b
  | .tInt8, b => by cases b <;> simp [typeBeq]
  | .tInt64, b => by cases b <;> simp [typeBeq]
  | .tText, b => by cases b <;> simp [typeBeq]
  | .tNull, b => by cases b <;> simp [typeBeq]
  | .tTuple _, .tInt8 => by simp [typeBeq]
  | .tTuple _, .tInt64 => by simp [typeBeq]
  | .tTuple _, .tText => by simp [typeBeq]
  | .tTuple _, .tNull => by simp [typeBeq]
  | .tTuple a, .tTuple b => by
    simp only [typeBeq, SqlType.tTuple.injEq]
    exact typeListBeq_iff a b
termination_by structural a _b => a

theorem typeListBeq_iff : ∀ a b : List SqlType, typeListBeq a b = true ↔ a = b
  | [], [] => by simp [typeListBeq]
  | [], _ :: _ => by simp [typeListBeq]
  | _ :: _, [] => by simp [typeListBeq]
  | a :: as, b :: bs => by
    simp only [typeListBeq, Bool.and_eq_true, List.cons.injEq]
    exact and_congr (typeBeq_iff a b) (typeListBeq_iff as bs)
termination_by structural a _b => a

end

instance : DecidableEq SqlType := fun a b => decidable_of_iff _ (typeBeq_iff a b)

/-- Expression nodes the embedded code manipulates.  `literal` and `getField`
are modelled from the spec (section 4.2: a literal evaluates to its stored
value; a field reference projects the row); `tuple` is the ordered candidate
container of section 3.  Each node carries its resolved output type. -/
inductive Expr where
  | literal (v : Option Val) (t : SqlType)
  | getField (idx : Nat) (t : SqlType)
  | tuple (es : List Expr)
deriving Repr

mutual

/-- Boolean equality on expressions. -/
def exprBeq : Expr → Expr → Bool
  | .literal v t, .literal w u => v == w && t == u
  | .getField i t, .getField j u => i == j && t == u
  | .tuple a, .tuple b => exprListBeq a b
  | _, _ => false
termination_by structural a _b => a

/-- Boolean equality on expression lists. -/
def exprListBeq : List Expr → List Expr → Bool
  | [], [] => true
  | a :: as, b :: bs => exprBeq a b && exprListBeq as bs
  | _, _ => false
termination_by structural a _b => a

end

mutual

theorem exprBeq_iff : ∀ a b : Expr, exprBeq a b = true ↔ a = b
  | .literal _ _, .literal _ _ => by simp [exprBeq]
  | .literal _ _, .getField _ _ => by simp [exprBeq]
  | .literal _ _, .tuple _ => by simp [exprBeq]
  | .getField _ _, .literal _ _ => by simp [exprBeq]
  | .getField _ _, .getField _ _ => by simp [exprBeq]
  | .getField _ _, .tuple _ => by simp [exprBeq]
  | .tuple _, .literal _ _ => by simp [exprBeq]
  | .tuple _, .getField _ _ => by simp [exprBeq]
  | .tuple a, .tuple b => by
    simp only [exprBeq, Expr.tuple.injEq]
    exact exprListBeq_iff a b
termination_by structural a _b => a

theorem exprListBeq_iff : ∀ a b : List Expr, exprListBeq a b = true ↔ a = b
  | [], [] => by simp [exprListBeq]
  | [], _ :: _ => by simp [exprListBeq]
  | _ :: _, [] => by simp [exprListBeq]
  | a :: as, b :: bs => by
    simp only [exprListBeq, Bool.and_eq_true, List.cons.injEq]
    exact and_congr (exprBeq_iff a b) (exprListBeq_iff as bs)
termination_by structural a _b => a

end

instance : DecidableEq Expr := fun a b => decidable_of_iff _ (exprBeq_iff a b)

mutual

/-- Resolved output type of an expression; a Tuple's type is the tuple of its
children's types (spec section 3, Tuple value). -/
def Expr.type : Expr → SqlType
  | .literal _ t => t
  | .getField _ t => t
  | .tuple es => .tTuple (exprTypes es)
termination_by structural e => e

/-- Types of an expression list, in order. -/
def exprTypes : List Expr → List SqlType
  | [] => []
  | e :: es => e.type :: exprTypes es
termination_by structural es => es

end

/-- A row: ordered column values, `none` for SQL NULL (Go `sql.Row`). -/
abbrev Row := List (Option Val)

mutual

/-- Evaluation (spec section 4.2): a literal yields its stored value, a field
reference projects the row (Go indexes the row slice directly, so an
out-of-range index is a runtime panic, modelled as `Err.rowIndexPanic`), and a
Tuple evaluates its children in order into a tuple value. -/
def Expr.eval : Expr → Row → Except Err (Option Val)
  | .literal v _, _ => .ok v
  | .getField i _, row =>
    match row.get? i with
    | some v => .ok v
    | none => .error .rowIndexPanic
  | .tuple es, row =>
    match evalElems es row with
    | .ok vs => .ok (some (.vTuple vs))
    | .error e => .error e
termination_by structural e _row => e

/-- Evaluate an expression list in order, stopping at the first error. -/
def evalElems : List Expr → Row → Except Err (List (Option Val))
  | [], _ => .ok []
  | e :: es, row =>
    match e.eval row with
    | .error er => .error er
    | .ok v =>
      match evalElems es row with
      | .error er => .error er
      | .ok vs => .ok (v :: vs)
termination_by structural es _row => es

end

/-- Embeds the candidate column-count check of `InTuple.Eval` (in.go:85-89):
the first candidate whose column count differs from the left operand's
promoted column count produces `ErrInvalidOperandColumns`. -/
def checkColumns (leftElems : Nat) : List Expr → Option Err
  | [] => none
  | el :: rest =>
    if el.type.numColumns ≠ leftElems then
      some (.invalidOperandColumns leftElems el.type.numColumns)
    else checkColumns leftElems rest

/-- Embeds the candidate loop of `InTuple.Eval` (in.go:91-121), including the
`!rightNull` guard: only the first NULL candidate takes the remember-and-skip
branch; later NULL candidates flow through `Convert`/`Compare` (which treat
NULL by the library convention).  On the first zero comparison the loop
returns true; when exhausted it returns NULL if a NULL candidate was seen and
false otherwise. -/
def inLoop (typ : SqlType) (leftConv : Option Val) (row : Row) :
    List Expr → Bool → Except Err (Option Val)
  | [], rightNull => if rightNull then .ok none else .ok (some (.vBool false))
  | el :: rest, rightNull =>
    match el.eval row with
    | .error e => .error e
    | .ok r =>
      if !rightNull && r.isNone then inLoop typ leftConv row rest true
      else
        match typ.convert r with
        | .error e => .error e
        | .ok r2 =>
          match typ.compareVals leftConv r2 with
          | .error e => .error e
          | .ok cmp =>
            if cmp = 0 then .ok (some (.vBool true)) else inLoop typ leftConv row rest rightNull

/-- Embeds `InTuple` (in.go:31): a binary expression with left operand and the
candidate container on the right. -/
structure InTuple where
  left : Expr
  right : Expr
deriving DecidableEq, Repr

/-- Embeds `InTuple.Eval` (in.go:60-125): promote the left type, evaluate the
left operand (NULL short-circuits to NULL), convert it to the promoted type,
then — for a Tuple right operand — check all candidate column counts before
running the candidate loop; a non-Tuple right operand is an unsupported
operand error. -/
def InTuple.eval (i : InTuple) (row : Row) : Except Err (Option Val) :=
  let typ := i.left.type.promote
  let leftElems := typ.numColumns
  match i.left.eval row with
  | .error e => .error e
  | .ok none => .ok none
  | .ok (some lv) =>
    match typ.convert (some lv) with
    | .error e => .error e
    | .ok leftConv =>
      match i.right with
      | .tuple es =>
        match checkColumns leftElems es with
        | some e => .error e
        | none => inLoop typ leftConv row es false
      | _ => .error .unsupportedInOperand

/-- Embeds `InTuple.Children` (in.go:144-146). -/
def InTuple.children (i : InTuple) : List Expr := [i.left, i.right]

/-- Embeds `InTuple.WithChildren` (in.go:128-133): exactly two children
rebuild a linear `InTuple`; any other count is `ErrInvalidChildrenNumber`
(the Go error also carries the node itself, which the model drops). -/
def InTuple.withChildren (_i : InTuple) (children : List Expr) : Except Err InTuple :=
  match children with
  | [a, b] => .ok ⟨a, b⟩
  | cs => .error (.invalidChildrenNumber cs.length 2)

/-- Modelled from the spec (canonical hashing): an injective digest standing
in for xxhash of the concatenated "%#v," segments the Go code writes.  Each
list entry is the code of one written segment; the digest is a bijective
pairing fold, so distinct segment lists get distinct digests (the spec's
"canonical hash" reading, which ignores astronomically unlikely xxhash
collisions — see spec section 9). -/
def encNatList : List Nat → Nat
  | [] => 0
  | n :: ns => Nat.pair n (encNatList ns) + 1

/-- Injective code of an integer value. -/
def encInt (n : Int) : Nat := 2 * n.natAbs + (if n < 0 then 1 else 0)

/-- Injective code of a character list. -/
def encCharList : List Char → Nat
  | [] => 0
  | c :: cs => Nat.pair c.toNat (encCharList cs) + 1

mutual

/-- Injective code of the Go-syntax (`%#v`) rendering of a value: the model
keeps only what the hashing code relies on — equal values render equally and
distinct values render distinctly (e.g. `1` versus `"1"`). -/
def encVal : Val → Nat
  | .vInt n => Nat.pair 0 (encInt n)
  | .vStr s => Nat.pair 1 (encCharList s.data)
  | .vBool b => Nat.pair 2 (cond b 1 0)
  | .vTuple vs => Nat.pair 3 (encOValList vs)
termination_by structural v => v

/-- Code of a possibly-NULL value; Go renders `nil` as `<nil>`. -/
def encOVal : Option Val → Nat
  | none => 0
  | some v => encVal v + 1
termination_by structural v => v

/-- Code of a list of possibly-NULL values. -/
def encOValList : List (Option Val) → Nat
  | [] => 0
  | v :: vs => Nat.pair (encOVal v) (encOValList vs) + 1
termination_by structural vs => vs

end

/-- Digest of a single written "%#v," value segment. -/
def litSegHash (i : Option Val) : Nat := encNatList [Nat.pair 0 (encOVal i)]

/-- Embeds `hashOfLiteral` (in.go:266-276): convert the literal's value under
`t`, then hash the written "%#v," segment of the converted value.  The Go
caller can pass a nil `sql.Type` interface (empty candidate list), making
`t.Convert` a nil-pointer panic, modelled as `Err.nilTypePanic`. -/
def hashOfLiteral (v : Option Val) (t : Option SqlType) : Except Err Nat :=
  match t with
  | none => .error .nilTypePanic
  | some t0 =>
    match t0.convert v with
    | .error e => .error e
    | .ok i => .ok (litSegHash i)

mutual

/-- Embeds the byte stream written by `hashOfTuple` (in.go:279-298), one code
per written segment, in element order. -/
def tupleSegs : List Expr → List Nat
  | [] => []
  | e :: es => segOf e ++ tupleSegs es
termination_by structural es => es

/-- Segments one element of a hashed Tuple contributes: a Literal writes its
raw stored value (note: no type conversion), a nested Tuple writes the
rendering of its own recursive hash, and any other element kind is silently
skipped (the Go type switch has no default case). -/
def segOf : Expr → List Nat
  | .literal v _ => [Nat.pair 0 (encOVal v)]
  | .tuple fs => [Nat.pair 1 (encNatList (tupleSegs fs))]
  | .getField _ _ => []
termination_by structural e => e

end

/-- Embeds `hashOfTuple` (in.go:279-298): digest of the written segments.
The only Go error path is a failed hash write, which cannot occur. -/
def hashOfTuple (es : List Expr) : Except Err Nat :=
  .ok (encNatList (tupleSegs es))

/-- Embeds `hashOf` (in.go:255-264): Tuples hash structurally, Literals hash
their converted value, anything else is an unsupported subexpression. -/
def hashOf (e : Expr) (t : Option SqlType) : Except Err Nat :=
  match e with
  | .tuple es => hashOfTuple es
  | .literal v _ => hashOfLiteral v t
  | .getField _ _ => .error .unsupportedHashInSubexpr

mutual

/-- Modelled from the spec (section 4.2 `TransformUp`) as applied by
`normalizeLeft` to a Tuple left operand: bottom-up replacement of every field
reference by a literal holding its evaluated value (in.go:300-314). -/
def normalizeExpr : Expr → Row → Except Err Expr
  | .literal v t, _ => .ok (.literal v t)
  | .getField i t, row =>
    match Expr.eval (.getField i t) row with
    | .error e => .error e
    | .ok v => .ok (.literal v t)
  | .tuple es, row =>
    match normalizeList es row with
    | .error e => .error e
    | .ok fs => .ok (.tuple fs)
termination_by structural e _row => e

/-- Bottom-up normalization of an expression list. -/
def normalizeList : List Expr → Row → Except Err (List Expr)
  | [], _ => .ok []
  | e :: es, row =>
    match normalizeExpr e row with
    | .error er => .error er
    | .ok f =>
      match normalizeList es row with
      | .error er => .error er
      | .ok fs => .ok (f :: fs)
termination_by structural es _row => es

end

/-- Embeds `normalizeLeft` (in.go:300-326): fold row-dependent field
references into literals so the left operand can be hashed.  The model's
expression type has exactly the kinds the Go switch handles, so the Go
default branch (`ErrUnsupportedHashInOperand`) has no counterpart here. -/
def normalizeLeft (e : Expr) (row : Row) : Except Err Expr :=
  match e with
  | .tuple es => normalizeExpr (.tuple es) row
  | .literal v t => .ok (.literal v t)
  | .getField i t =>
    match Expr.eval (.getField i t) row with
    | .error er => .error er
    | .ok v => .ok (.literal v t)

/-- Embeds `HashInTuple` (in.go:154-159): the embedded linear node plus the
construction-time hash map, NULL flag and unified right-hand type (`nil`
when the candidate list is empty, hence `Option`). -/
structure HashInTuple where
  toInTuple : InTuple
  cmp : List (Nat × Expr)
  hasNull : Bool
  rightType : Option SqlType
deriving DecidableEq, Repr

/-- Go map assignment `elements[key] = el`; prepending is lookup-equivalent
because `List.lookup` returns the most recent binding for a key. -/
def mapInsert (m : List (Nat × Expr)) (k : Nat) (e : Expr) : List (Nat × Expr) :=
  (k, e) :: m

/-- The head of the `newInMap` loop body (in.go:229-237): set the unified
type from the first element, and column-check every later element's promoted
type against it. -/
def inMapColCheck (t : Option SqlType) (el : Expr) : Except Err (Option SqlType) :=
  match t with
  | none => .ok (some el.type)
  | some t0 =>
    if t0.numColumns ≠ el.type.promote.numColumns then
      .error (.invalidOperandColumns el.type.promote.numColumns t0.numColumns)
    else .ok (some t0)

/-- Embeds the candidate loop of `newInMap` (in.go:228-248).  State threads
exactly the Go locals: the map under construction, the `hasNull` flag
(initialized false and — as in the source — never assigned), and the unified
type `t` (see `inMapColCheck`).  Literal and Tuple elements are hashed under
`t`; any other element kind, or a hashing failure, aborts construction with
`ErrUnsupportedHashInSubexpression`. -/
def newInMapLoop :
    List Expr → List (Nat × Expr) → Bool → Option SqlType →
    Except Err (List (Nat × Expr) × Bool × Option SqlType)
  | [], elements, hasNull, t => .ok (elements, hasNull, t)
  | el :: rest, elements, hasNull, t =>
    match inMapColCheck t el with
    | .error e => .error e
    | .ok t2 =>
      match el with
      | .literal v lt =>
        match hashOf (.literal v lt) t2 with
        | .error _ => .error .unsupportedHashInSubexpr
        | .ok key => newInMapLoop rest (mapInsert elements key (.literal v lt)) hasNull t2
      | .tuple es =>
        match hashOf (.tuple es) t2 with
        | .error _ => .error .unsupportedHashInSubexpr
        | .ok key => newInMapLoop rest (mapInsert elements key (.tuple es)) hasNull t2
      | .getField _ _ => .error .unsupportedHashInSubexpr

/-- Embeds `newInMap` (in.go:222-253): the right operand must be a Tuple;
its elements are hashed into the candidate map. -/
def newInMap (expr : Expr) : Except Err (List (Nat × Expr) × Bool × Option SqlType) :=
  match expr with
  | .tuple right => newInMapLoop right [] false none
  | _ => .error .unsupportedHashInOperand

/-- Embeds `NewHashInTuple` (in.go:164-171). -/
def newHashInTuple (left right : Expr) : Except Err HashInTuple :=
  match newInMap right with
  | .error e => .error e
  | .ok (cmp, hasNull, t) => .ok ⟨⟨left, right⟩, cmp, hasNull, t⟩

/-- Embeds `HashInTuple.Eval` (in.go:174-211): short-circuit to NULL when
the construction-time NULL flag is set; otherwise normalize the left
operand, check column counts against the recorded right-hand type, evaluate
the left value (NULL yields NULL), hash the normalized left under the
recorded type and test map membership. -/
def HashInTuple.eval (hit : HashInTuple) (row : Row) : Except Err (Option Val) :=
  if hit.hasNull then .ok none
  else
    match normalizeLeft hit.toInTuple.left row with
    | .error e => .error e
    | .ok left =>
      let leftElems := left.type.promote.numColumns
      if numColumnsOpt hit.rightType ≠ leftElems then
        .error (.invalidOperandColumns leftElems (numColumnsOpt hit.rightType))
      else
        match left.eval row with
        | .error e => .error e
        | .ok none => .ok none
        | .ok (some _) =>
          match hashOf left hit.rightType with
          | .error e => .error e
          | .ok key =>
            match hit.cmp.lookup key with
            | some _ => .ok (some (.vBool true))
            | none => .ok (some (.vBool false))

/-- Promoted method: `HashInTuple` defines no `Children` of its own, so the
embedded `InTuple`'s method is called. -/
def HashInTuple.children (hit : HashInTuple) : List Expr :=
  hit.toInTuple.children

/-- Promoted method: `HashInTuple` defines no `WithChildren` of its own, so
the embedded `InTuple`'s method is called — rebuilding a plain linear
`InTuple`, not a `HashInTuple`. -/
def HashInTuple.withChildren (hit : HashInTuple) (children : List Expr) : Except Err InTuple :=
  hit.toInTuple.withChildren children

/-- Mini-parser errors: end of input (Go `io.EOF`), the expected/found pair
carried by `errUnexpectedSyntax`, and a residual kind standing for reader
I/O errors that an in-memory reader never produces (kept so the combinators'
propagation behaviour is statable). -/
inductive PErr where
  | eof
  | unexpected (expected found : String)
  | ioErr (msg : String)
deriving DecidableEq, Repr

/-- The error test of `optional` (part_000:96): `err == io.EOF ||
errUnexpectedSyntax.Is(err)`. -/
def isBacktrackable : PErr → Bool
  | .eof => true
  | .unexpected _ _ => true
  | .ioErr _ => false

/-- Recognizes the mini-parser's syntax-error kind (`errUnexpectedSyntax.Is`). -/
def isSynErr : PErr → Bool
  | .unexpected _ _ => true
  | _ => false

/-- ASCII lowering of one character (model of Go `strings.ToLower` on the
character set the parser handles). -/
def charLower (c : Char) : Char :=
  if 'A' ≤ c ∧ c ≤ 'Z' then Char.ofNat (c.toNat + 32) else c

/-- ASCII lowering of a string. -/
def strLower (s : String) : String := String.mk (s.data.map charLower)

/-- Identifier runes (part_000:157): letters, digits and underscore. -/
def validIdentRune (c : Char) : Bool := c.isAlpha || c.isDigit || c == '_'

/-- Embeds `readLetter` (part_000:109-128): consume one letter into the
buffer, or silently consume nothing (end of input and non-letters are not
errors; a non-letter is unread). -/
def readLetter : List Char → String × List Char
  | [] => ("", [])
  | c :: rest => if c.isAlpha then (String.singleton c, rest) else ("", c :: rest)

/-- Embeds `readValidIdentRune` (part_000:151-166): consume one identifier
rune; end of input propagates `io.EOF`, and a non-identifier rune is unread
and reported with the same `io.EOF` sentinel, which the calling loop treats
as "stop". -/
def readValidIdentRune : List Char → (Except PErr Char) × List Char
  | [] => ((.error .eof), [])
  | c :: rest =>
    if validIdentRune c then ((.ok c), rest) else ((.error .eof), c :: rest)

/-- The `readIdent` loop (part_000:227-233): iterate `readValidIdentRune`
until it reports its stop sentinel (see `readIdentAux_step`). -/
def readIdentAux (buf : String) : List Char → String × List Char
  | [] => (buf, [])
  | c :: rest =>
    if validIdentRune c then readIdentAux (buf.push c) rest else (buf, c :: rest)

/-- Embeds `readIdent` (part_000:220-238): an optional leading letter, the
identifier-rune loop, and a final lowering.  The in-memory reader produces no
I/O errors, so the embedded result is always a success. -/
def readIdent (rd : List Char) : (Except PErr String) × List Char :=
  let p1 := readLetter rd
  let p2 := readIdentAux p1.1 p1.2
  ((.ok (strLower p2.1)), p2.2)

/-- Embeds `readValidQuotedIdentRune` (part_000:185-213): `Peek(2)` fails
with `io.EOF` when fewer than two bytes remain; a doubled backtick is
consumed as one embedded backtick; a single backtick stops the loop via the
`io.EOF` sentinel without consuming; anything else is consumed verbatim. -/
def readValidQuotedIdentRune : List Char → (Except PErr Char) × List Char
  | [] => ((.error .eof), [])
  | [c] => ((.error .eof), [c])
  | c :: d :: rest =>
    if c = '\x60' then
      if d = '\x60' then ((.ok '\x60'), rest)
      else ((.error .eof), c :: d :: rest)
    else ((.ok c), d :: rest)

/-- The `readQuotedIdent` loop (part_000:270-276): iterate
`readValidQuotedIdentRune` until its stop sentinel (see
`readQuotedAux_step`). -/
def readQuotedAux (buf : String) : List Char → String × List Char
  | [] => (buf, [])
  | [c] => (buf, [c])
  | c :: d :: rest =>
    if c = '\x60' then
      if d = '\x60' then readQuotedAux (buf.push '\x60') rest
      else (buf, c :: d :: rest)
    else readQuotedAux (buf.push c) (d :: rest)

/-- Embeds `readQuotedIdent` (part_000:263-281): the first quoted rune is
required (its error — including `io.EOF` — propagates); the rest are read by
the loop; the buffer is lowered into the identifier. -/
def readQuotedIdent (rd : List Char) : (Except PErr String) × List Char :=
  match readValidQuotedIdentRune rd with
  | ((.error e), rd2) => ((.error e), rd2)
  | ((.ok c), rd2) =>
    let p := readQuotedAux (String.singleton c) rd2
    ((.ok (strLower p.1)), p.2)

/-- Embeds `expectQuote` (part_000:360-371): read one rune (consuming it
either way) and require a backtick. -/
def expectQuote : List Char → (Option PErr) × List Char
  | [] => (some .eof, [])
  | c :: rest =>
    if c = '\x60' then (none, rest)
    else (some (.unexpected ("\x60") (String.singleton c)), rest)

/-- Embeds `readQuotableIdent` (part_000:338-358): peek one byte; a leading
backtick selects the quoted form `expectQuote; readQuotedIdent; expectQuote`,
anything else the bare `readIdent`; steps run sequentially, stopping at the
first error. -/
def readQuotableIdent (rd : List Char) : (Except PErr String) × List Char :=
  match rd with
  | [] => ((.error .eof), [])
  | c :: _ =>
    if c = '\x60' then
      match expectQuote rd with
      | (some e, rd2) => ((.error e), rd2)
      | (none, rd2) =>
        match readQuotedIdent rd2 with
        | ((.error e), rd3) => ((.error e), rd3)
        | ((.ok id), rd3) =>
          match expectQuote rd3 with
          | (some e, rd4) => ((.error e), rd4)
          | (none, rd4) => ((.ok id), rd4)
    else readIdent rd

/-- Characterizes a quoted-identifier body with no closing backtick, by the
consumption discipline of `readValidQuotedIdentRune`: a doubled backtick is
an escape (skip both), any other character is body text, and a closing
backtick is a backtick not part of a doubled pair — either followed by a
non-backtick or left as the final character (where the two-byte peek stops
the loop and `expectQuote` consumes it).  `noCloseQuote s = true` means the
identifier opened before `s` is never terminated. -/
def noCloseQuote : List Char → Bool
  | [] => true
  | [c] => c != '\x60'
  | c :: d :: rest =>
    if c = '\x60' then
      if d = '\x60' then noCloseQuote rest else false
    else noCloseQuote (d :: rest)

/-- Embeds `expect` (part_000:50-64): read an identifier and require it to
equal the expected word. -/
def expect (expected : String) (rd : List Char) : (Option PErr) × List Char :=
  match readIdent rd with
  | ((.error e), rd2) => (some e, rd2)
  | ((.ok id), rd2) =>
    if id = expected then (none, rd2) else (some (.unexpected expected id), rd2)

/-- Embeds `optional` (part_000:92-107): run the steps in order; a step
failing with `io.EOF` or a syntax error ends the whole combinator with
success (the remaining steps are skipped and — notably — the reader is left
wherever the failing step left it); any other error propagates. -/
def optional :
    List (List Char → (Option PErr) × List Char) → List Char → (Option PErr) × List Char
  | [], rd => (none, rd)
  | step :: rest, rd =>
    match step rd with
    | (some e, rd2) => if isBacktrackable e then (none, rd2) else (some e, rd2)
    | (none, rd2) => optional rest rd2

/-- Embeds `maybe` (part_000:373-401): peek `str.length` bytes — too little
input is a non-match, not an error — and consume them exactly when their
lowering equals `str`, reporting whether the match happened. -/
def maybe (str : String) (rd : List Char) : (Option PErr) × Bool × List Char :=
  let n := str.length
  if rd.length < n then (none, false, rd)
  else if strLower (String.mk (rd.take n)) = str then (none, true, rd.drop n)
  else (none, false, rd)

/-- One candidate value matches the converted left value: it is non-NULL and,
after conversion to the comparison type, compares equal (the body of the
candidate loop, as a predicate on the candidate's evaluated value). -/
def candMatch (typ : SqlType) (leftConv : Option Val) (v : Option Val) : Bool :=
  v.isSome &&
    (match typ.convert v with
     | .ok v2 =>
       (match typ.compareVals leftConv v2 with
        | .ok c => c == 0
        | .error _ => false)
     | .error _ => false)

/-- Scalar type descriptors (everything but tuple-of-N). -/
def SqlType.isScalar : SqlType → Bool
  | .tTuple _ => false
  | _ => true

instance {ε α : Type} [DecidableEq ε] [DecidableEq α] : DecidableEq (Except ε α) :=
  fun x y =>
    match x, y with
    | .ok a, .ok b =>
      if h : a = b then isTrue (by rw [h]) else isFalse (by intro hh; cases hh; exact h rfl)
    | .error e, .error f =>
      if h : e = f then isTrue (by rw [h]) else isFalse (by intro hh; cases hh; exact h rfl)
    | .ok _, .error _ => isFalse (fun hh => Except.noConfusion hh)
    | .error _, .ok _ => isFalse (fun hh => Except.noConfusion hh)

theorem convert_none (t : SqlType) : t.convert none = .ok none := by
  cases t <;> rfl

theorem convert_some_isSome {t : SqlType} {v : Val} {w : Option Val}
    (h : t.convert (some v) = .ok w) : w.isSome = true := by
  cases t <;> cases v <;> simp only [SqlType.convert] at h <;>
    first
    | (cases h; rfl)
    | exact absurd h (by simp)
    | ((repeat' split at h) <;> first | (cases h; rfl) | exact absurd h (by simp))

theorem compare_some_none {t : SqlType} {u : Val} :
    t.compareVals (some u) none = .ok (-1) := by
  cases t <;> cases u <;> rfl

theorem compare_none_some {t : SqlType} {u : Val} :
    t.compareVals none (some u) = .ok 1 := by
  cases t <;> cases u <;> rfl

theorem checkColumns_none {les : Nat} {es : List Expr}
    (h : es.find? (fun el => el.type.numColumns ≠ les) = none) :
    checkColumns les es = none := by
  induction es with
  | nil => rfl
  | cons el rest ih =>
    rw [List.find?_cons] at h
    rw [checkColumns]
    split at h
    · exact absurd h (by simp)
    · next hcond =>
      rw [if_neg (by simpa using hcond)]
      exact ih h

theorem checkColumns_some {les : Nat} {es : List Expr} {el0 : Expr}
    (h : es.find? (fun el => el.type.numColumns ≠ les) = some el0) :
    checkColumns les es = some (.invalidOperandColumns les el0.type.numColumns) := by
  induction es with
  | nil => simp at h
  | cons el rest ih =>
    rw [List.find?_cons] at h
    rw [checkColumns]
    split at h
    · next hcond =>
      cases h
      rw [if_pos (by simpa using hcond)]
    · next hcond =>
      rw [if_neg (by simpa using hcond)]
      exact ih h

theorem inLoop_eq {typ : SqlType} {u : Val} {row : Row} :
    ∀ {es : List Expr} {vs : List (Option Val)},
    List.Forall₂ (fun el v => el.eval row = .ok v) es vs →
    (∀ v ∈ vs, v.isSome = true →
      ∃ v2 c, typ.convert v = .ok v2 ∧ typ.compareVals (some u) v2 = .ok c) →
    ∀ rn : Bool,
    inLoop typ (some u) row es rn =
      .ok (if vs.any (candMatch typ (some u)) then some (.vBool true)
           else if rn || vs.any (fun v => v.isNone) then none
           else some (.vBool false)) := by
  intro es vs h
  induction h with
  | nil =>
    intro _hok rn
    cases rn <;> simp [inLoop]
  | @cons el v es2 vs2 hel _htail ih =>
    intro hok rn
    have hrest : ∀ w ∈ vs2, w.isSome = true →
        ∃ v2 c, typ.convert w = .ok v2 ∧ typ.compareVals (some u) v2 = .ok c :=
      fun w hw => hok w (List.mem_cons_of_mem _ hw)
    cases v with
    | none =>
      cases rn with
      | false =>
        simp only [inLoop, hel, Option.isNone_none, Bool.not_false, Bool.and_self]
        rw [ih hrest true]
        simp [candMatch]
      | true =>
        simp only [inLoop, hel, Option.isNone_none, Bool.not_true, Bool.false_and,
          Bool.false_eq_true, if_false, convert_none, compare_some_none]
        rw [if_neg (by decide), ih hrest true]
        simp [candMatch]
    | some w =>
      obtain ⟨v2, c, hconv, hcmp⟩ := hok (some w) (List.mem_cons_self _ _) rfl
      have hguard : (!rn && (some w).isNone) = false := by
        cases rn <;> rfl
      simp only [inLoop, hel, hguard, Bool.false_eq_true, if_false, hconv, hcmp]
      by_cases hc : c = 0
      · subst hc
        rw [if_pos rfl]
        have hcm : candMatch typ (some u) (some w) = true := by
          simp [candMatch, hconv, hcmp]
        simp [hcm]
      · rw [if_neg hc, ih hrest rn]
        have hcm : candMatch typ (some u) (some w) = false := by
          simp [candMatch, hconv, hcmp, hc]
        simp [hcm]

theorem inTuple_eval_unfold {left : Expr} {es : List Expr} {row : Row} {lv : Val}
    {lc : Option Val}
    (hl : left.eval row = .ok (some lv))
    (hc : left.type.promote.convert (some lv) = .ok lc)
    (hcols : checkColumns left.type.promote.numColumns es = none) :
    InTuple.eval ⟨left, .tuple es⟩ row = inLoop left.type.promote lc row es false := by
  simp only [InTuple.eval, hl, hc, hcols]

theorem inTuple_eval_colErr {left : Expr} {es : List Expr} {row : Row} {lv : Val}
    {lc : Option Val} {e : Err}
    (hl : left.eval row = .ok (some lv))
    (hc : left.type.promote.convert (some lv) = .ok lc)
    (hcols : checkColumns left.type.promote.numColumns es = some e) :
    InTuple.eval ⟨left, .tuple es⟩ row = .error e := by
  simp only [InTuple.eval, hl, hc, hcols]

theorem newInMapLoop_hasNull :
    ∀ (es : List Expr) (m : List (Nat × Expr)) (b : Bool) (t : Option SqlType)
      (r : List (Nat × Expr) × Bool × Option SqlType),
    newInMapLoop es m b t = .ok r → r.2.1 = b := by
  intro es
  induction es with
  | nil =>
    intro m b t r h
    cases h
    rfl
  | cons el rest ih =>
    intro m b t r h
    rw [newInMapLoop] at h
    split at h
    · exact absurd h (by simp)
    · split at h <;>
        first
        | exact absurd h (by simp)
        | (split at h
           · exact absurd h (by simp)
           · exact ih _ _ _ _ h)

theorem encInt_inj {a b : Int} (h : encInt a = encInt b) : a = b := by
  unfold encInt at h
  split_ifs at h <;> omega

theorem charToNat_inj {a b : Char} (h : a.toNat = b.toNat) : a = b := by
  have ha : Char.ofNat a.toNat = a := Char.ofNat_toNat a
  have hb : Char.ofNat b.toNat = b := Char.ofNat_toNat b
  rw [← ha, ← hb, h]

theorem encCharList_inj : ∀ {a b : List Char}, encCharList a = encCharList b → a = b := by
  intro a
  induction a with
  | nil =>
    intro b h
    cases b with
    | nil => rfl
    | cons d ds => simp [encCharList] at h
  | cons c cs ih =>
    intro b h
    cases b with
    | nil => simp [encCharList] at h
    | cons d ds =>
      simp only [encCharList, Nat.add_right_cancel_iff, Nat.pair_eq_pair] at h
      rw [charToNat_inj h.1, ih h.2]

mutual

theorem encVal_inj : ∀ a b : Val, encVal a = encVal b → a = b
  | .vInt a, .vInt b => by
    intro h
    simp only [encVal, Nat.pair_eq_pair] at h
    rw [encInt_inj h.2]
  | .vInt _, .vStr _ => by intro h; simp [encVal, Nat.pair_eq_pair] at h
  | .vInt _, .vBool _ => by intro h; simp [encVal, Nat.pair_eq_pair] at h
  | .vInt _, .vTuple _ => by intro h; simp [encVal, Nat.pair_eq_pair] at h
  | .vStr _, .vInt _ => by intro h; simp [encVal, Nat.pair_eq_pair] at h
  | .vStr a, .vStr b => by
    intro h
    simp only [encVal, Nat.pair_eq_pair] at h
    have hd := encCharList_inj h.2
    cases a
    cases b
    exact congrArg (fun l => Val.vStr ⟨l⟩) hd
  | .vStr _, .vBool _ => by intro h; simp [encVal, Nat.pair_eq_pair] at h
  | .vStr _, .vTuple _ => by intro h; simp [encVal, Nat.pair_eq_pair] at h
  | .vBool _, .vInt _ => by intro h; simp [encVal, Nat.pair_eq_pair] at h
  | .vBool _, .vStr _ => by intro h; simp [encVal, Nat.pair_eq_pair] at h
  | .vBool a, .vBool b => by
    intro h
    simp only [encVal, Nat.pair_eq_pair] at h
    cases a <;> cases b <;> simp_all
  | .vBool _, .vTuple _ => by intro h; simp [encVal, Nat.pair_eq_pair] at h
  | .vTuple _, .vInt _ => by intro h; simp [encVal, Nat.pair_eq_pair] at h
  | .vTuple _, .vStr _ => by intro h; simp [encVal, Nat.pair_eq_pair] at h
  | .vTuple _, .vBool _ => by intro h; simp [encVal, Nat.pair_eq_pair] at h
  | .vTuple a, .vTuple b => by
    intro h
    simp only [encVal, Nat.pair_eq_pair] at h
    rw [encOValList_inj a b h.2]
termination_by structural a _b => a

theorem encOVal_inj : ∀ a b : Option Val, encOVal a = encOVal b → a = b
  | none, none => by intro _; rfl
  | none, some _ => by intro h; simp [encOVal] at h
  | some _, none => by intro h; simp [encOVal] at h
  | some v, some w => by
    intro h
    simp only [encOVal, Nat.add_right_cancel_iff] at h
    rw [encVal_inj v w h]
termination_by structural a _b => a

theorem encOValList_inj : ∀ a b : List (Option Val), encOValList a = encOValList b → a = b
  | [], [] => by intro _; rfl
  | [], _ :: _ => by intro h; simp [encOValList] at h
  | _ :: _, [] => by intro h; simp [encOValList] at h
  | v :: vs, w :: ws => by
    intro h
    simp only [encOValList, Nat.add_right_cancel_iff, Nat.pair_eq_pair] at h
    rw [encOVal_inj v w h.1, encOValList_inj vs ws h.2]
termination_by structural a _b => a

end

theorem litSegHash_inj {a b : Option Val} (h : litSegHash a = litSegHash b) : a = b := by
  simp only [litSegHash, encNatList, Nat.add_right_cancel_iff, Nat.pair_eq_pair] at h
  exact encOVal_inj a b h.1.2

theorem scalar_compare_zero {t : SqlType} (hs : t.isScalar = true) {x y : Option Val}
    (h : t.compareVals x y = .ok 0) : x = y := by
  cases t with
  | tTuple ts => simp [SqlType.isScalar] at hs
  | tInt8 =>
    cases x with
    | none =>
      cases y with
      | none => rfl
      | some w => rw [compare_none_some] at h; simp at h
    | some v =>
      cases y with
      | none => rw [compare_some_none] at h; simp at h
      | some w =>
        cases v <;> cases w <;> simp only [SqlType.compareVals] at h <;>
          first
          | (split_ifs at h with h1 h2
             · simp at h
             · rw [h2]
             · simp at h)
          | simp at h
  | tInt64 =>
    cases x with
    | none =>
      cases y with
      | none => rfl
      | some w => rw [compare_none_some] at h; simp at h
    | some v =>
      cases y with
      | none => rw [compare_some_none] at h; simp at h
      | some w =>
        cases v <;> cases w <;> simp only [SqlType.compareVals] at h <;>
          first
          | (split_ifs at h with h1 h2
             · simp at h
             · rw [h2]
             · simp at h)
          | simp at h
  | tText =>
    cases x with
    | none =>
      cases y with
      | none => rfl
      | some w => rw [compare_none_some] at h; simp at h
    | some v =>
      cases y with
      | none => rw [compare_some_none] at h; simp at h
      | some w =>
        cases v <;> cases w <;> simp only [SqlType.compareVals] at h <;>
          first
          | (split_ifs at h with h1 h2
             · rw [h1]
             · simp at h
             · simp at h)
          | simp at h
  | tNull =>
    cases x with
    | none =>
      cases y with
      | none => rfl
      | some w => rw [compare_none_some] at h; simp at h
    | some v =>
      cases y with
      | none => rw [compare_some_none] at h; simp at h
      | some w => cases v <;> cases w <;> simp [SqlType.compareVals] at h

theorem convert_i64_shape {v : Val} {w : Option Val}
    (h : SqlType.tInt64.convert (some v) = .ok w) : ∃ n, w = some (.vInt n) := by
  cases v <;> simp only [SqlType.convert] at h
  · cases h; exact ⟨_, rfl⟩
  · split at h
    · cases h; exact ⟨_, rfl⟩
    · simp at h
  · simp at h
  · simp at h

theorem convert_text_shape {v : Val} {w : Option Val}
    (h : SqlType.tText.convert (some v) = .ok w) : ∃ s, w = some (.vStr s) := by
  cases v <;> simp only [SqlType.convert] at h
  · cases h; exact ⟨_, rfl⟩
  · cases h; exact ⟨_, rfl⟩
  · simp at h
  · simp at h

theorem scalar_compare_total {T : SqlType} (hT : T = .tInt64 ∨ T = .tText)
    {a b : Val} {x y : Option Val}
    (hx : T.convert (some a) = .ok x) (hy : T.convert (some b) = .ok y) :
    ∃ c, T.compareVals x y = .ok c := by
  rcases hT with rfl | rfl
  · obtain ⟨n, rfl⟩ := convert_i64_shape hx
    obtain ⟨m, rfl⟩ := convert_i64_shape hy
    exact ⟨_, rfl⟩
  · obtain ⟨p, rfl⟩ := convert_text_shape hx
    obtain ⟨q, rfl⟩ := convert_text_shape hy
    exact ⟨_, rfl⟩

theorem scalar_compare_self {T : SqlType} (hT : T = .tInt64 ∨ T = .tText)
    {a : Val} {x : Option Val} (hx : T.convert (some a) = .ok x) :
    T.compareVals x x = .ok 0 := by
  rcases hT with rfl | rfl
  · obtain ⟨n, rfl⟩ := convert_i64_shape hx
    simp [SqlType.compareVals]
  · obtain ⟨p, rfl⟩ := convert_text_shape hx
    simp [SqlType.compareVals]

theorem lookup_cons_isSome {k k2 : Nat} {e : Expr} {m : List (Nat × Expr)} :
    (((k, e) :: m).lookup k2).isSome = true ↔ k2 = k ∨ (m.lookup k2).isSome = true := by
  rw [List.lookup]
  by_cases hk : k2 = k
  · simp [hk]
  · simp [hk, beq_false_of_ne hk]

theorem newInMapLoop_lits {T : SqlType} (hT : T = .tInt64 ∨ T = .tText) :
    ∀ (us : List Val) (m : List (Nat × Expr)),
    (∀ u ∈ us, ∃ cu, T.convert (some u) = .ok cu) →
    ∃ m2, newInMapLoop (us.map (fun u => Expr.literal (some u) T)) m false (some T) =
        .ok (m2, false, some T) ∧
      (∀ k : Nat, ((m2.lookup k).isSome = true ↔
        ((m.lookup k).isSome = true ∨
         ∃ u ∈ us, ∃ cu, T.convert (some u) = .ok cu ∧ k = litSegHash cu))) := by
  have hp : T.promote = T := by rcases hT with rfl | rfl <;> rfl
  intro us
  induction us with
  | nil =>
    intro m _hconv
    exact ⟨m, rfl, by simp⟩
  | cons u us ih =>
    intro m hconv
    obtain ⟨cu, hcu⟩ := hconv u (List.mem_cons_self _ _)
    obtain ⟨m2, heq, hiff⟩ :=
      ih (mapInsert m (litSegHash cu) (.literal (some u) T))
        (fun w hw => hconv w (List.mem_cons_of_mem _ hw))
    refine ⟨m2, ?_, ?_⟩
    · have hcol : inMapColCheck (some T) (.literal (some u) T) = .ok (some T) := by
        simp [inMapColCheck, Expr.type, hp]
      have hkey : hashOf (.literal (some u) T) (some T) = .ok (litSegHash cu) := by
        simp [hashOf, hashOfLiteral, hcu]
      rw [List.map_cons, newInMapLoop, hcol]
      simp only [hkey]
      exact heq
    · intro k
      rw [hiff k]
      have hins : (((mapInsert m (litSegHash cu) (.literal (some u) T)).lookup k).isSome = true)
          ↔ (k = litSegHash cu ∨ (m.lookup k).isSome = true) := lookup_cons_isSome
      rw [hins, List.exists_mem_cons_iff]
      have hhead : (∃ cu2, T.convert (some u) = .ok cu2 ∧ k = litSegHash cu2)
          ↔ k = litSegHash cu := by
        constructor
        · rintro ⟨cu2, hcu2, rfl⟩
          rw [hcu] at hcu2
          cases hcu2
          rfl
        · intro hk
          exact ⟨cu, hcu, hk⟩
      rw [hhead]
      tauto

theorem forall2_lits {T : SqlType} {row : Row} :
    ∀ ws : List Val,
    List.Forall₂ (fun el v => Expr.eval el row = .ok v)
      (ws.map (fun u => Expr.literal (some u) T)) (ws.map some) := by
  intro ws
  induction ws with
  | nil => exact .nil
  | cons w ws ihw => exact .cons rfl ihw

theorem checkColumns_lits {T : SqlType} {n : Nat} (hn : T.numColumns = n) :
    ∀ ws : List Val,
    checkColumns n (ws.map (fun u => Expr.literal (some u) T)) = none := by
  intro ws
  induction ws with
  | nil => rfl
  | cons w ws ihw =>
    rw [List.map_cons, checkColumns]
    rw [if_neg (by simp [Expr.type, hn])]
    exact ihw

theorem candMatch_iff {T : SqlType} (hT : T = .tInt64 ∨ T = .tText)
    {lc cu : Option Val} {lv u : Val}
    (hlc : T.convert (some lv) = .ok lc) (hcu : T.convert (some u) = .ok cu) :
    (candMatch T lc (some u) = true ↔ lc = cu) := by
  have hscalar : T.isScalar = true := by rcases hT with rfl | rfl <;> rfl
  obtain ⟨c, hc⟩ := scalar_compare_total hT hlc hcu
  simp only [candMatch, Option.isSome_some, Bool.true_and, hcu, hc]
  constructor
  · intro h
    have hc0 : c = 0 := by simpa using h
    exact scalar_compare_zero hscalar (hc0 ▸ hc)
  · intro h
    subst h
    have hself := scalar_compare_self hT hlc
    rw [hself] at hc
    cases hc
    simp

theorem c3_eval_core {T tL : SqlType} (hT : T = .tInt64 ∨ T = .tText) (hpl : tL.promote = T)
    {left : Expr} (hty : left.type = tL) {row : Row} {v : Option Val}
    (heval : left.eval row = .ok v)
    (hnorm : normalizeLeft left row = .ok (.literal v tL))
    (u0 : Val) (us : List Val) (m2 : List (Nat × Expr))
    (hus : ∀ u ∈ (u0 :: us), ∃ cu, T.convert (some u) = .ok cu)
    (hiffAll : ∀ k : Nat, ((m2.lookup k).isSome = true ↔
       ∃ u ∈ (u0 :: us), ∃ cu, T.convert (some u) = .ok cu ∧ k = litSegHash cu)) :
    HashInTuple.eval
        ⟨⟨left, .tuple ((u0 :: us).map (fun u => Expr.literal (some u) T))⟩, m2, false, some T⟩
        row
      = InTuple.eval ⟨left, .tuple ((u0 :: us).map (fun u => Expr.literal (some u) T))⟩ row := by
  have hprom : left.type.promote = T := by rw [hty, hpl]
  have hcolEq : numColumnsOpt (some T) = (Expr.literal v tL).type.promote.numColumns := by
    simp [numColumnsOpt, Expr.type, hpl]
  rw [HashInTuple.eval]
  simp only [Bool.false_eq_true, if_false, hnorm]
  rw [if_neg (by simp [hcolEq])]
  cases v with
  | none =>
    simp only [Expr.eval]
    rw [InTuple.eval]
    simp only [heval]
  | some lv =>
    simp only [Expr.eval]
    cases hconv : T.convert (some lv) with
    | error e =>
      have hh : hashOf (.literal (some lv) tL) (some T) = .error e := by
        simp [hashOf, hashOfLiteral, hconv]
      rw [hh, InTuple.eval]
      simp only [heval, hprom, hconv]
    | ok lc =>
      obtain ⟨lcv, rfl⟩ : ∃ w, lc = some w := by
        have hs := convert_some_isSome hconv
        cases lc with
        | none => simp at hs
        | some w => exact ⟨w, rfl⟩
      have hh : hashOf (.literal (some lv) tL) (some T) = .ok (litSegHash (some lcv)) := by
        simp [hashOf, hashOfLiteral, hconv]
      rw [hh]
      have hcols :
          checkColumns left.type.promote.numColumns
            ((u0 :: us).map (fun u => Expr.literal (some u) T)) = none := by
        rw [hprom]
        exact checkColumns_lits rfl _
      have hlin :
          InTuple.eval ⟨left, .tuple ((u0 :: us).map (fun u => Expr.literal (some u) T))⟩ row
            = inLoop T (some lcv) row
                ((u0 :: us).map (fun u => Expr.literal (some u) T)) false := by
        have h1 := inTuple_eval_unfold heval (by rw [hprom]; exact hconv) hcols
        rw [h1, hprom]
      have hok : ∀ w ∈ (u0 :: us).map some, w.isSome = true →
          ∃ v2 c, T.convert w = .ok v2 ∧ T.compareVals (some lcv) v2 = .ok c := by
        intro w hw _
        obtain ⟨u, hu, rfl⟩ := List.mem_map.mp hw
        obtain ⟨cu, hcu⟩ := hus u hu
        obtain ⟨c, hc⟩ := scalar_compare_total hT hconv hcu
        exact ⟨cu, c, hcu, hc⟩
      rw [hlin, inLoop_eq (forall2_lits _) hok false]
      have hnoNull : (((u0 :: us).map some).any fun w => w.isNone) = false := by
        simp
      have hbool : (m2.lookup (litSegHash (some lcv))).isSome
          = ((u0 :: us).map some).any (candMatch T (some lcv)) := by
        rw [Bool.eq_iff_iff, hiffAll, List.any_eq_true]
        constructor
        · rintro ⟨u, hu, cu, hcu, hk⟩
          have hcueq : some lcv = cu := litSegHash_inj hk
          refine ⟨some u, List.mem_map_of_mem _ hu, ?_⟩
          exact (candMatch_iff hT hconv hcu).mpr hcueq
        · rintro ⟨x, hx, hcm⟩
          obtain ⟨u, hu, rfl⟩ := List.mem_map.mp hx
          obtain ⟨cu, hcu⟩ := hus u hu
          have hcueq := (candMatch_iff hT hconv hcu).mp hcm
          exact ⟨u, hu, cu, hcu, congrArg litSegHash hcueq⟩
      cases hany : ((u0 :: us).map some).any (candMatch T (some lcv)) with
      | true =>
        have hsome : (m2.lookup (litSegHash (some lcv))).isSome = true := by
          rw [hbool, hany]
        obtain ⟨e2, he2⟩ := Option.isSome_iff_exists.mp hsome
        simp [he2, hany]
      | false =>
        have hnone : (m2.lookup (litSegHash (some lcv))).isSome = false := by
          rw [hbool, hany]
        have hnone2 : m2.lookup (litSegHash (some lcv)) = none := by
          cases hlk : m2.lookup (litSegHash (some lcv)) with
          | none => rfl
          | some e2 => rw [hlk] at hnone; simp at hnone
        simp [hnone2, hany, hnoNull]

theorem tupleSegs_zip :
    ∀ (vs : List (Option Val)) (ts : List SqlType), ts.length = vs.length →
    tupleSegs (List.zipWith (fun v t => Expr.literal v t) vs ts)
      = vs.map (fun v => Nat.pair 0 (encOVal v)) := by
  intro vs
  induction vs with
  | nil => intro ts _; cases ts <;> rfl
  | cons v vs ihv =>
    intro ts hlen
    cases ts with
    | nil => simp at hlen
    | cons t ts =>
      rw [List.zipWith_cons_cons, List.map_cons]
      rw [show tupleSegs (Expr.literal v t :: List.zipWith (fun v t => Expr.literal v t) vs ts)
          = segOf (Expr.literal v t)
            ++ tupleSegs (List.zipWith (fun v t => Expr.literal v t) vs ts) from rfl]
      rw [ihv ts (by simpa using hlen)]
      rfl

theorem readIdentAux_step : ∀ (rd : List Char) (buf : String),
    readIdentAux buf rd =
      (match readValidIdentRune rd with
       | ((.ok c), rd2) => readIdentAux (buf.push c) rd2
       | ((.error _), rd2) => (buf, rd2)) := by
  intro rd buf
  cases rd with
  | nil => rfl
  | cons c rest =>
    by_cases hc : validIdentRune c = true
    · simp [readIdentAux, readValidIdentRune, hc]
    · simp [readIdentAux, readValidIdentRune, hc]

theorem readQuotedAux_step : ∀ (rd : List Char) (buf : String),
    readQuotedAux buf rd =
      (match readValidQuotedIdentRune rd with
       | ((.ok c), rd2) => readQuotedAux (buf.push c) rd2
       | ((.error _), rd2) => (buf, rd2)) := by
  intro rd buf
  match rd with
  | [] => rfl
  | [c] => rfl
  | c :: d :: rest =>
    by_cases hc : c = '\x60'
    · by_cases hd : d = '\x60'
      · simp [readQuotedAux, readValidQuotedIdentRune, hc, hd]
      · simp [readQuotedAux, readValidQuotedIdentRune, hc, hd]
    · simp [readQuotedAux, readValidQuotedIdentRune, hc]

theorem readQuotedAux_noTick :
    ∀ (s : List Char) (last : Char) (buf : String),
    '\x60' ∉ s → last ≠ '\x60' →
    ∃ buf2, readQuotedAux buf (s ++ [last]) = (buf2, [last]) := by
  intro s
  induction s with
  | nil => intro last buf _ _; exact ⟨buf, rfl⟩
  | cons c s ih =>
    intro last buf hns hl
    have hc : c ≠ '\x60' := fun h => hns (h ▸ List.mem_cons_self _ _)
    cases hs : s ++ [last] with
    | nil => exact absurd hs (by simp)
    | cons d rest =>
      obtain ⟨buf2, h2⟩ :=
        ih last (buf.push c) (fun hm => hns (List.mem_cons_of_mem _ hm)) hl
      refine ⟨buf2, ?_⟩
      rw [List.cons_append, hs, readQuotedAux, if_neg hc, ← hs, h2]

theorem readQuotedAux_noClose : ∀ (n : Nat) (s : List Char), s.length ≤ n →
    ∀ (buf : String), noCloseQuote s = true →
    (∃ buf2, readQuotedAux buf s = (buf2, [])) ∨
    (∃ buf2 c, c ≠ '\x60' ∧ readQuotedAux buf s = (buf2, [c])) := by
  intro n
  induction n with
  | zero =>
    intro s hlen buf _
    have hs : s = [] := List.length_eq_zero.mp (Nat.le_zero.mp hlen)
    subst hs
    exact Or.inl ⟨buf, rfl⟩
  | succ n ih =>
    intro s hlen buf h
    match s with
    | [] => exact Or.inl ⟨buf, rfl⟩
    | [c] =>
      have hc : c ≠ '\x60' := by simpa [noCloseQuote] using h
      exact Or.inr ⟨buf, c, hc, rfl⟩
    | c :: d :: rest =>
      by_cases hc : c = '\x60'
      · subst hc
        have hd : d = '\x60' := by
          by_contra hd
          rw [noCloseQuote, if_pos rfl, if_neg hd] at h
          exact Bool.false_ne_true h
        subst hd
        have hrest : noCloseQuote rest = true := by
          rw [noCloseQuote, if_pos rfl, if_pos rfl] at h
          exact h
        rw [readQuotedAux, if_pos rfl, if_pos rfl]
        exact ih rest (by simp only [List.length_cons] at hlen; omega) _ hrest
      · have hrest : noCloseQuote (d :: rest) = true := by
          rw [noCloseQuote, if_neg hc] at h
          exact h
        rw [readQuotedAux, if_neg hc]
        exact ih (d :: rest) (by simp only [List.length_cons] at hlen ⊢; omega) _ hrest

theorem readQuotedAux_noClose_pair : ∀ (n : Nat) (s : List Char), s.length ≤ n →
    ∀ (buf : String), noCloseQuote s = true →
    ∃ buf2, readQuotedAux buf (s ++ ['\x60', '\x60']) = (buf2, []) := by
  intro n
  induction n with
  | zero =>
    intro s hlen buf _
    have hs : s = [] := List.length_eq_zero.mp (Nat.le_zero.mp hlen)
    subst hs
    exact ⟨buf.push '\x60', rfl⟩
  | succ n ih =>
    intro s hlen buf h
    match s with
    | [] => exact ⟨buf.push '\x60', rfl⟩
    | [c] =>
      have hc : c ≠ '\x60' := by simpa [noCloseQuote] using h
      refine ⟨(buf.push c).push '\x60', ?_⟩
      rw [show ([c] ++ ['\x60', '\x60']) = c :: '\x60' :: ['\x60'] from rfl]
      rw [readQuotedAux, if_neg hc]
      rfl
    | c :: d :: rest =>
      by_cases hc : c = '\x60'
      · subst hc
        have hd : d = '\x60' := by
          by_contra hd
          rw [noCloseQuote, if_pos rfl, if_neg hd] at h
          exact Bool.false_ne_true h
        subst hd
        have hrest : noCloseQuote rest = true := by
          rw [noCloseQuote, if_pos rfl, if_pos rfl] at h
          exact h
        obtain ⟨buf2, h2⟩ :=
          ih rest (by simp only [List.length_cons] at hlen; omega) (buf.push '\x60') hrest
        refine ⟨buf2, ?_⟩
        rw [show (('\x60' :: '\x60' :: rest) ++ ['\x60', '\x60'])
            = '\x60' :: '\x60' :: (rest ++ ['\x60', '\x60']) from rfl]
        rw [readQuotedAux, if_pos rfl, if_pos rfl]
        exact h2
      · have hrest : noCloseQuote (d :: rest) = true := by
          rw [noCloseQuote, if_neg hc] at h
          exact h
        obtain ⟨buf2, h2⟩ :=
          ih (d :: rest) (by simp only [List.length_cons] at hlen ⊢; omega) (buf.push c) hrest
        refine ⟨buf2, ?_⟩
        rw [show ((c :: d :: rest) ++ ['\x60', '\x60'])
            = c :: d :: (rest ++ ['\x60', '\x60']) from rfl]
        rw [readQuotedAux, if_neg hc]
        exact h2

/-- C1: for the linear InTuple evaluator with a non-NULL (and convertible)
left value, candidates are iterated in order with NULL candidates remembered
and skipped; the first candidate comparing equal (after conversion) yields
true regardless of earlier NULLs; with no match the result is NULL exactly
when a NULL candidate was seen and false otherwise.  In particular, for left
value 5 and candidates [NULL, 5] the result is true, and for left value 7 and
candidates [NULL, 5] the result is NULL. -/
theorem inTuple_linear_null_handling :
    (∀ (left : Expr) (es : List Expr) (row : Row) (lv u : Val)
       (vs : List (Option Val)),
      Expr.eval left row = .ok (some lv) →
      left.type.promote.convert (some lv) = .ok (some u) →
      checkColumns left.type.promote.numColumns es = none →
      List.Forall₂ (fun el v => el.eval row = .ok v) es vs →
      (∀ v ∈ vs, v.isSome = true →
        ∃ v2 c, left.type.promote.convert v = .ok v2 ∧
          left.type.promote.compareVals (some u) v2 = .ok c) →
      InTuple.eval ⟨left, .tuple es⟩ row =
        .ok (if vs.any (candMatch left.type.promote (some u)) then some (.vBool true)
             else if vs.any (fun v => v.isNone) then none
             else some (.vBool false))) ∧
    InTuple.eval ⟨.literal (some (.vInt 5)) .tInt64,
        .tuple [.literal none .tNull, .literal (some (.vInt 5)) .tInt64]⟩ []
      = .ok (some (.vBool true)) ∧
    InTuple.eval ⟨.literal (some (.vInt 7)) .tInt64,
        .tuple [.literal none .tNull, .literal (some (.vInt 5)) .tInt64]⟩ []
      = .ok none := by
  refine ⟨?_, by decide, by decide⟩
  intro left es row lv u vs hl hc hcols hev hok
  rw [inTuple_eval_unfold hl hc hcols, inLoop_eq hev hok false]
  simp only [Bool.false_or]

/-- Witness for C1: the general clause applied to left value 6 over the
candidate list [NULL, 6]. -/
theorem inTuple_linear_null_handling_witness :
    InTuple.eval ⟨.literal (some (.vInt 6)) .tInt64,
        .tuple [.literal none .tNull, .literal (some (.vInt 6)) .tInt64]⟩ []
      = .ok (some (.vBool true)) := by
  have h := inTuple_linear_null_handling.1
    (.literal (some (.vInt 6)) .tInt64)
    [.literal none .tNull, .literal (some (.vInt 6)) .tInt64]
    [] (.vInt 6) (.vInt 6) [none, some (.vInt 6)]
    (by decide) (by decide) (by decide)
    (.cons (by decide) (.cons (by decide) .nil))
    (by
      intro v hv hs
      rcases List.mem_cons.mp hv with rfl | hv2
      · simp at hs
      · rcases List.mem_cons.mp hv2 with rfl | h3
        · exact ⟨some (.vInt 6), 0, by decide, by decide⟩
        · cases h3)
  rw [h]
  decide

/-- C2: the code declares the construction-time NULL flag but never sets it —
`newInMap` always reports `hasNull = false`, so `HashInTuple.Eval` never takes
the claimed unconditional-NULL short-circuit: over candidates (5, NULL) with
left value 7 it returns false where the claim (and the spec) require NULL. -/
theorem hashIn_hasNull_never_set :
    (∀ e : Expr,
      match newInMap e with
      | .ok r => r.2.1 = false
      | .error _ => True) ∧
    (newHashInTuple (.literal (some (.vInt 7)) .tInt64)
        (.tuple [.literal (some (.vInt 5)) .tInt64, .literal none .tNull])).map
        (fun h => h.hasNull) = .ok false ∧
    (newHashInTuple (.literal (some (.vInt 7)) .tInt64)
        (.tuple [.literal (some (.vInt 5)) .tInt64, .literal none .tNull])).map
        (fun h => HashInTuple.eval h []) = .ok (.ok (some (.vBool false))) := by
  refine ⟨?_, by decide, by decide⟩
  intro e
  cases e with
  | literal v t => simp [newInMap]
  | getField i t => simp [newInMap]
  | tuple es =>
    rw [newInMap]
    cases heq : newInMapLoop es [] false none with
    | error er => simp
    | ok r => exact newInMapLoop_hasNull es [] false none r heq

/-- C5 counterexample: the left operand evaluates to the non-NULL value
"abc" and the single candidate has column count 2 against the left's promoted
column count 1, yet evaluation fails with the conversion error — the left
value is converted before the column-count check runs — not with
InvalidOperandColumns as claimed. -/
theorem column_check_cex :
    Expr.eval (.literal (some (.vStr ("abc"))) .tInt64) [] = .ok (some (.vStr ("abc"))) ∧
    (Expr.literal (some (.vTuple [none, none])) (.tTuple [.tInt64, .tInt64])).type.numColumns
      ≠ (Expr.literal (some (.vStr ("abc"))) .tInt64).type.promote.numColumns ∧
    InTuple.eval ⟨.literal (some (.vStr ("abc"))) .tInt64,
        .tuple [.literal (some (.vTuple [none, none])) (.tTuple [.tInt64, .tInt64])]⟩ []
      = .error .convErr := by
  refine ⟨by decide, by decide, by decide⟩

/-- C5 amended: in the linear variant, when the left operand evaluates to a
non-NULL value that converts to the promoted left type without error and
some candidate's column count differs from the left's promoted column count,
evaluation fails with the structural InvalidOperandColumns error for the
first such candidate, regardless of any candidate's evaluation — the check
runs once over all candidates before the comparison loop.  In the hashed
variant the column check against the recorded right-hand type runs before
the left value is converted (and before its NULL check), so with the NULL
flag clear a successfully normalized left whose promoted column count
differs from the recorded right-hand type's yields InvalidOperandColumns
with no convertibility condition at all. -/
theorem column_check_amended :
    (∀ (left : Expr) (es : List Expr) (row : Row) (lv : Val) (lc : Option Val) (el0 : Expr),
      Expr.eval left row = .ok (some lv) →
      left.type.promote.convert (some lv) = .ok lc →
      es.find? (fun el => el.type.numColumns ≠ left.type.promote.numColumns) = some el0 →
      InTuple.eval ⟨left, .tuple es⟩ row =
        .error (.invalidOperandColumns left.type.promote.numColumns el0.type.numColumns)) ∧
    (∀ (hit : HashInTuple) (row : Row) (nl : Expr),
      hit.hasNull = false →
      normalizeLeft hit.toInTuple.left row = .ok nl →
      numColumnsOpt hit.rightType ≠ nl.type.promote.numColumns →
      HashInTuple.eval hit row =
        .error (.invalidOperandColumns nl.type.promote.numColumns
          (numColumnsOpt hit.rightType))) := by
  constructor
  · intro left es row lv lc el0 hl hc hfind
    exact inTuple_eval_colErr hl hc (checkColumns_some hfind)
  · intro hit row nl hnull hnorm hne
    rw [HashInTuple.eval]
    simp only [hnull, Bool.false_eq_true, if_false, hnorm]
    rw [if_pos hne]

/-- Witness for C5: in the linear variant the column mismatch is reported
even though the mismatched candidate is a field reference whose evaluation
would panic; in the hashed variant it is reported even though the left
operand's text value "abc" is not convertible at any numeric type — no
conversion precedes the hashed check. -/
theorem column_check_witness :
    InTuple.eval ⟨.literal (some (.vInt 1)) .tInt64,
        .tuple [.getField 0 (.tTuple [.tInt64, .tInt64])]⟩ []
      = .error (.invalidOperandColumns 1 2) ∧
    HashInTuple.eval ⟨⟨.literal (some (.vStr ("abc"))) .tText, .tuple []⟩, [], false,
        some (.tTuple [.tInt64, .tInt64])⟩ []
      = .error (.invalidOperandColumns 1 2) := by
  constructor
  · have h := column_check_amended.1 (.literal (some (.vInt 1)) .tInt64)
      [.getField 0 (.tTuple [.tInt64, .tInt64])] [] (.vInt 1) (some (.vInt 1))
      (.getField 0 (.tTuple [.tInt64, .tInt64]))
      (by decide) (by decide) (by decide)
    rw [h]
    decide
  · have h := column_check_amended.2
      ⟨⟨.literal (some (.vStr ("abc"))) .tText, .tuple []⟩, [], false,
        some (.tTuple [.tInt64, .tInt64])⟩ []
      (.literal (some (.vStr ("abc"))) .tText) rfl (by decide) (by decide)
    rw [h]
    decide

/-- C10 counterexample: the left operand evaluates to the non-NULL value
"abc" without error and the right operand is the empty Tuple, yet evaluation
returns the conversion error (the left value is converted to the promoted
type before the empty candidate loop), not false. -/
theorem empty_tuple_cex :
    Expr.eval (.literal (some (.vStr ("abc"))) .tInt64) [] = .ok (some (.vStr ("abc"))) ∧
    InTuple.eval ⟨.literal (some (.vStr ("abc"))) .tInt64, .tuple []⟩ []
      = .error .convErr := by
  refine ⟨by decide, by decide⟩

/-- C10 amended: when the left operand evaluates to a non-NULL value that
also converts to the left's promoted type without error, the linear InTuple
over an empty Tuple returns false — never NULL and never an error. -/
theorem empty_tuple_amended :
    ∀ (left : Expr) (row : Row) (lv : Val) (lc : Option Val),
      Expr.eval left row = .ok (some lv) →
      left.type.promote.convert (some lv) = .ok lc →
      InTuple.eval ⟨left, .tuple []⟩ row = .ok (some (.vBool false)) := by
  intro left row lv lc hl hc
  have hcols : checkColumns left.type.promote.numColumns ([] : List Expr) = none := rfl
  rw [inTuple_eval_unfold hl hc hcols]
  rfl

/-- Witness for C10: an integer literal left operand over the empty list. -/
theorem empty_tuple_witness :
    InTuple.eval ⟨.literal (some (.vInt 42)) .tInt64, .tuple []⟩ []
      = .ok (some (.vBool false)) :=
  empty_tuple_amended (.literal (some (.vInt 42)) .tInt64) [] (.vInt 42)
    (some (.vInt 42)) (by decide) (by decide)

/-- C6 counterexample: `HashInTuple` inherits `WithChildren` from the
embedded `InTuple`, so the round trip through its own children rebuilds a
plain linear node; over candidates (5, NULL) with left 7 the hashed node
evaluates to false while the rebuilt linear node evaluates to NULL — the
round trip does not preserve Eval. -/
theorem withChildren_roundtrip_cex :
    (newHashInTuple (.literal (some (.vInt 7)) .tInt64)
        (.tuple [.literal (some (.vInt 5)) .tInt64, .literal none .tNull])).map
        (fun h => HashInTuple.eval h []) = .ok (.ok (some (.vBool false))) ∧
    (newHashInTuple (.literal (some (.vInt 7)) .tInt64)
        (.tuple [.literal (some (.vInt 5)) .tInt64, .literal none .tNull])).map
        (fun h => (HashInTuple.withChildren h (HashInTuple.children h)).map
          (fun i => InTuple.eval i [])) = .ok (.ok (.ok none)) := by
  refine ⟨by decide, by decide⟩

/-- C6 amended: for every linear `InTuple` node, `WithChildren` applied to
the node's own children succeeds and yields a node whose Eval agrees with the
original on every row; for `HashInTuple` the inherited `WithChildren`
rebuilds a linear `InTuple`, whose Eval can differ from the hashed node's
(e.g. on NULL-containing candidate lists). -/
theorem withChildren_roundtrip_amended :
    ∀ (i : InTuple) (row : Row),
      ∃ i2, InTuple.withChildren i (InTuple.children i) = .ok i2 ∧
        InTuple.eval i2 row = InTuple.eval i row := by
  intro i row
  refine ⟨i, ?_, rfl⟩
  cases i
  rfl

/-- C7: for both membership node embeddings, `Children` has length 2;
`WithChildren` with any other child count fails with the structural
invalid-children-number error, and with exactly 2 children it succeeds. -/
theorem withChildren_arity :
    ∀ (i : InTuple) (h : HashInTuple) (cs : List Expr),
      (InTuple.children i).length = 2 ∧
      (HashInTuple.children h).length = 2 ∧
      (cs.length ≠ 2 →
        InTuple.withChildren i cs = .error (.invalidChildrenNumber cs.length 2) ∧
        HashInTuple.withChildren h cs = .error (.invalidChildrenNumber cs.length 2)) ∧
      (cs.length = 2 →
        (∃ i2, InTuple.withChildren i cs = .ok i2) ∧
        (∃ i3, HashInTuple.withChildren h cs = .ok i3)) := by
  intro i h cs
  refine ⟨rfl, rfl, ?_, ?_⟩
  · intro hne
    match cs with
    | [] => exact ⟨rfl, rfl⟩
    | [a] => exact ⟨rfl, rfl⟩
    | [a, b] => exact absurd rfl hne
    | a :: b :: c :: rest => exact ⟨rfl, rfl⟩
  · intro heq
    match cs with
    | [a, b] => exact ⟨⟨⟨a, b⟩, rfl⟩, ⟨⟨a, b⟩, rfl⟩⟩
    | [] => simp at heq
    | [a] => simp at heq
    | a :: b :: c :: rest => simp at heq

/-- Witness for C7: arity behaviour at concrete nodes and child lists. -/
theorem withChildren_arity_witness :
    InTuple.withChildren ⟨.literal none .tNull, .tuple []⟩ []
      = .error (.invalidChildrenNumber 0 2) ∧
    (∃ i2, InTuple.withChildren ⟨.literal none .tNull, .tuple []⟩
      [.literal none .tNull, .tuple []] = .ok i2) := by
  have h0 := withChildren_arity ⟨.literal none .tNull, .tuple []⟩
    ⟨⟨.literal none .tNull, .tuple []⟩, [], false, none⟩ []
  have h2 := withChildren_arity ⟨.literal none .tNull, .tuple []⟩
    ⟨⟨.literal none .tNull, .tuple []⟩, [], false, none⟩
    [.literal none .tNull, .tuple []]
  exact ⟨(h0.2.2.1 (by decide)).1, (h2.2.2.2 (by decide)).1⟩

/-- C3 counterexample: the two variants disagree on the claim's own cases.
Empty list: the hashed variant records a nil right-hand type, so evaluation
hits the nil-type panic in `hashOfLiteral` while the linear variant returns
false.  Mixed types requiring promotion: with left 5 (Int64) and the single
text candidate "05", the linear variant converts "05" at the promoted Int64
and finds a match (true), while the hashed variant compares canonical hashes
under the Text right-hand type ("5" versus "05") and returns false. -/
theorem hashIn_linear_agree_cex :
    (newHashInTuple (.literal (some (.vInt 5)) .tInt64) (.tuple [])).map
        (fun h => HashInTuple.eval h []) = .ok (.error .nilTypePanic) ∧
    InTuple.eval ⟨.literal (some (.vInt 5)) .tInt64, .tuple []⟩ []
      = .ok (some (.vBool false)) ∧
    (newHashInTuple (.literal (some (.vInt 5)) .tInt64)
        (.tuple [.literal (some (.vStr ("05"))) .tText])).map
        (fun h => HashInTuple.eval h []) = .ok (.ok (some (.vBool false))) ∧
    InTuple.eval ⟨.literal (some (.vInt 5)) .tInt64,
        .tuple [.literal (some (.vStr ("05"))) .tText]⟩ []
      = .ok (some (.vBool true)) := by
  refine ⟨by decide, by decide, by decide, by decide⟩

/-- C3 amended: for every nonempty candidate list of non-NULL literals all of
one scalar type T (Int64 or Text) that is also the left operand's promoted
type, with every candidate value convertible at T, and the left operand a
literal or field reference, construction of the hashed variant succeeds and
its Eval agrees with the linear variant's Eval on every row (errors
included). -/
theorem hashIn_linear_agree_amended :
    ∀ (T tL : SqlType) (left : Expr) (u0 : Val) (us : List Val) (row : Row),
      (T = .tInt64 ∨ T = .tText) →
      tL.promote = T →
      ((∃ w, left = .literal w tL) ∨ (∃ k, left = .getField k tL)) →
      (∀ u ∈ (u0 :: us), ∃ cu, T.convert (some u) = .ok cu) →
      ∃ h,
        newHashInTuple left
            (.tuple ((u0 :: us).map (fun u => Expr.literal (some u) T))) = .ok h ∧
        HashInTuple.eval h row =
          InTuple.eval ⟨left, .tuple ((u0 :: us).map (fun u => Expr.literal (some u) T))⟩
            row := by
  intro T tL left u0 us row hT hpl hleft hus
  obtain ⟨cu0, hcu0⟩ := hus u0 (List.mem_cons_self _ _)
  obtain ⟨m2, hloop, hiff⟩ :=
    newInMapLoop_lits hT us
      (mapInsert [] (litSegHash cu0) (.literal (some u0) T))
      (fun w hw => hus w (List.mem_cons_of_mem _ hw))
  have hcol0 : inMapColCheck none (.literal (some u0) T) = .ok (some T) := by
    simp [inMapColCheck, Expr.type]
  have hkey0 : hashOf (.literal (some u0) T) (some T) = .ok (litSegHash cu0) := by
    simp [hashOf, hashOfLiteral, hcu0]
  have hmap : newInMap (.tuple ((u0 :: us).map (fun u => Expr.literal (some u) T)))
      = .ok (m2, false, some T) := by
    rw [newInMap, List.map_cons, newInMapLoop, hcol0]
    simp only [hkey0]
    exact hloop
  have hhit : newHashInTuple left
      (.tuple ((u0 :: us).map (fun u => Expr.literal (some u) T)))
      = .ok ⟨⟨left, .tuple ((u0 :: us).map (fun u => Expr.literal (some u) T))⟩,
          m2, false, some T⟩ := by
    rw [newHashInTuple, hmap]
  refine ⟨_, hhit, ?_⟩
  have hiffAll : ∀ k2 : Nat, ((m2.lookup k2).isSome = true ↔
      ∃ u ∈ (u0 :: us), ∃ cu, T.convert (some u) = .ok cu ∧ k2 = litSegHash cu) := by
    intro k2
    rw [hiff k2]
    have hins :
        (((mapInsert ([] : List (Nat × Expr)) (litSegHash cu0)
            (.literal (some u0) T)).lookup k2).isSome = true)
          ↔ k2 = litSegHash cu0 := by
      rw [show mapInsert ([] : List (Nat × Expr)) (litSegHash cu0) (.literal (some u0) T)
          = [(litSegHash cu0, Expr.literal (some u0) T)] from rfl]
      rw [lookup_cons_isSome]
      simp [List.lookup]
    rw [hins, List.exists_mem_cons_iff]
    have hhead : (∃ cu2, T.convert (some u0) = .ok cu2 ∧ k2 = litSegHash cu2)
        ↔ k2 = litSegHash cu0 := by
      constructor
      · rintro ⟨cu2, hcu2, rfl⟩
        rw [hcu0] at hcu2
        cases hcu2
        rfl
      · intro hk
        exact ⟨cu0, hcu0, hk⟩
    rw [hhead]
  rcases hleft with ⟨w, rfl⟩ | ⟨k, rfl⟩
  · exact @c3_eval_core T tL hT hpl (.literal w tL) rfl row w rfl rfl u0 us m2 hus hiffAll
  · cases hev : Expr.eval (.getField k tL) row with
    | error e =>
      have hnorm2 : normalizeLeft (.getField k tL) row = .error e := by
        simp only [normalizeLeft, hev]
      rw [HashInTuple.eval]
      simp only [Bool.false_eq_true, if_false, hnorm2]
      rw [InTuple.eval]
      simp only [hev]
    | ok v =>
      have hnorm2 : normalizeLeft (.getField k tL) row = .ok (.literal v tL) := by
        simp only [normalizeLeft, hev]
      exact @c3_eval_core T tL hT hpl (.getField k tL) rfl row v hev hnorm2 u0 us m2 hus hiffAll

/-- Witness for C3: left literal 3 (Int64) against candidates (3, 9). -/
theorem hashIn_linear_agree_witness :
    (newHashInTuple (.literal (some (.vInt 3)) .tInt64)
        (.tuple (([.vInt 3, .vInt 9] : List Val).map
          (fun u => Expr.literal (some u) .tInt64)))).map
        (fun h => HashInTuple.eval h []) =
      .ok (InTuple.eval ⟨.literal (some (.vInt 3)) .tInt64,
        .tuple (([.vInt 3, .vInt 9] : List Val).map
          (fun u => Expr.literal (some u) .tInt64))⟩ []) := by
  obtain ⟨h, hh, he⟩ :=
    hashIn_linear_agree_amended .tInt64 .tInt64 (.literal (some (.vInt 3)) .tInt64)
      (.vInt 3) [.vInt 9] [] (Or.inl rfl) rfl (Or.inl ⟨some (.vInt 3), rfl⟩)
      (by
        intro u hu
        rcases List.mem_cons.mp hu with rfl | hu2
        · exact ⟨some (.vInt 3), by decide⟩
        · rcases List.mem_cons.mp hu2 with rfl | h3
          · exact ⟨some (.vInt 9), by decide⟩
          · cases h3)
  rw [hh]
  simp only [Except.map]
  rw [he]

/-- C4 counterexample: the integer literal 1 and the string literal "1"
convert to the same Int64 value 1 and compare equal under Int64, yet the two
one-element tuples holding them hash differently under the unified tuple type
(Int64): `hashOfTuple` hashes the raw stored element values without
converting them, so element-wise compare-equality under conversion does not
make tuple hashes agree. -/
theorem hash_homomorphism_cex :
    SqlType.convert .tInt64 (some (.vStr ("1"))) = .ok (some (.vInt 1)) ∧
    SqlType.convert .tInt64 (some (.vInt 1)) = .ok (some (.vInt 1)) ∧
    SqlType.compareVals .tInt64 (some (.vInt 1)) (some (.vInt 1)) = .ok 0 ∧
    hashOf (.tuple [.literal (some (.vInt 1)) .tInt64]) (some (.tTuple [.tInt64]))
      ≠ hashOf (.tuple [.literal (some (.vStr ("1"))) .tText])
          (some (.tTuple [.tInt64])) := by
  refine ⟨by decide, by decide, by decide, by decide⟩

/-- C4 amended: for scalar unified types the literal hash is a homomorphism
with respect to value equality — two literal values that convert successfully
and compare equal after conversion produce identical `hashOfLiteral` digests.
Tuples hash element by element in order but on the raw stored values, without
conversion: two literal-element tuples with the same raw value list hash
identically whatever the elements' declared types, while compare-equality
under conversion does not suffice. -/
theorem hash_homomorphism_amended :
    (∀ (t : SqlType) (a b a2 b2 : Option Val),
      t.isScalar = true →
      t.convert a = .ok a2 → t.convert b = .ok b2 →
      t.compareVals a2 b2 = .ok 0 →
      hashOfLiteral a (some t) = hashOfLiteral b (some t)) ∧
    (∀ (vs : List (Option Val)) (ts us : List SqlType),
      ts.length = vs.length → us.length = vs.length →
      hashOfTuple (List.zipWith (fun v t => Expr.literal v t) vs ts)
        = hashOfTuple (List.zipWith (fun v t => Expr.literal v t) vs us)) := by
  constructor
  · intro t a b a2 b2 hs hca hcb hcmp
    have hab : a2 = b2 := scalar_compare_zero hs hcmp
    simp only [hashOfLiteral, hca, hcb, hab]
  · intro vs ts us hts hus
    rw [hashOfTuple, hashOfTuple, tupleSegs_zip vs ts hts, tupleSegs_zip vs us hus]

/-- Witness for C4: the string literal "7" and the integer literal 7 hash
identically under Int64, and a one-element tuple's hash ignores the declared
element type. -/
theorem hash_homomorphism_witness :
    hashOfLiteral (some (.vStr ("7"))) (some .tInt64)
      = hashOfLiteral (some (.vInt 7)) (some .tInt64) ∧
    hashOfTuple [.literal (some (.vInt 1)) .tInt64]
      = hashOfTuple [.literal (some (.vInt 1)) .tText] :=
  ⟨hash_homomorphism_amended.1 .tInt64 (some (.vStr ("7"))) (some (.vInt 7))
      (some (.vInt 7)) (some (.vInt 7)) (by decide) (by decide) (by decide) (by decide),
   hash_homomorphism_amended.2 [some (.vInt 1)] [.tInt64] [.tText] (by decide) (by decide)⟩

/-- C8 counterexample: `optional` over the single step `expect "foo"`
converts the syntax error raised on input "bar" into success, but the reader
is left at the end of input — the failing step had already consumed the
identifier — not at its position before the call. -/
theorem optional_maybe_cex :
    optional [expect ("foo")] (("bar").data) = (none, []) ∧
    ("bar").data ≠ ([] : List Char) := by
  refine ⟨by decide, by decide⟩

/-- C8 amended: `optional` converts an inner step's end-of-input or syntax
error into a successful result and propagates any other error unchanged, but
leaves the reader wherever the failing step left it (input may remain
consumed); `maybe` never errors and, on a non-match, leaves the reader at
exactly its position before the call. -/
theorem optional_maybe_amended :
    (∀ (step : List Char → (Option PErr) × List Char)
       (rest : List (List Char → (Option PErr) × List Char))
       (rd rd2 : List Char) (e : PErr),
      step rd = (some e, rd2) → isBacktrackable e = true →
      optional (step :: rest) rd = (none, rd2)) ∧
    (∀ (step : List Char → (Option PErr) × List Char)
       (rest : List (List Char → (Option PErr) × List Char))
       (rd rd2 : List Char) (e : PErr),
      step rd = (some e, rd2) → isBacktrackable e = false →
      optional (step :: rest) rd = (some e, rd2)) ∧
    (∀ (str : String) (rd : List Char), (maybe str rd).1 = none) ∧
    (∀ (str : String) (rd : List Char),
      (maybe str rd).2.1 = false → (maybe str rd).2.2 = rd) := by
  refine ⟨?_, ?_, ?_, ?_⟩
  · intro step rest rd rd2 e hstep hb
    rw [optional, hstep]
    simp [hb]
  · intro step rest rd rd2 e hstep hb
    rw [optional, hstep]
    simp [hb]
  · intro str rd
    simp only [maybe]
    split_ifs <;> rfl
  · intro str rd
    simp only [maybe]
    split_ifs <;> simp

/-- Witness for C8: the error-conversion clause at `expect "foo"` on "bar"
(a syntax error), the propagation clause at a step raising an I/O error, and
the maybe non-consumption clause on a too-short input. -/
theorem optional_maybe_witness :
    optional [expect ("foo")] (("bar").data) = (none, []) ∧
    optional [fun rd => (some (.ioErr ("io")), rd)] (("xy").data)
      = (some (.ioErr ("io")), ("xy").data) ∧
    (maybe ("select") (("xy").data)).2.2 = ("xy").data := by
  refine ⟨?_, ?_, ?_⟩
  · exact optional_maybe_amended.1 (expect ("foo")) [] (("bar").data) []
      (.unexpected ("foo") ("bar")) (by decide) (by decide)
  · exact optional_maybe_amended.2.1 (fun rd => (some (.ioErr ("io")), rd)) []
      (("xy").data) (("xy").data) (.ioErr ("io")) rfl rfl
  · exact optional_maybe_amended.2.2.2 ("select") (("xy").data) (by decide)

/-- C9 counterexample: the backtick-quoted identifier with its closing
backtick missing and only one body character fails with `io.EOF` — the
two-byte peek runs out of input before the syntax check — not with a
SyntaxError as claimed. -/
theorem quoted_ident_cex :
    (readQuotableIdent (("\x60a").data)).1 = .error .eof ∧
    isSynErr .eof = false := by
  refine ⟨by decide, by decide⟩

/-- C9 amended: parsing the backtick-quoted identifier with a doubled
backtick decodes it as one embedded backtick character, and parsing a
quoted identifier whose closing backtick is missing — the input after the
opening backtick satisfies `noCloseQuote` — never succeeds: it always
fails, with either end-of-input (`io.EOF`) or the expected-backtick
SyntaxError reporting the found character.  End-of-input occurs in
particular whenever fewer than two characters follow the opening backtick
(the two-byte peek runs out of input) and whenever the unterminated input
ends with an escaped backtick pair (the escape consumes the rest of the
reader before the closing-quote check). -/
theorem quoted_ident_amended :
    readQuotableIdent (("\x60a\x60\x60b\x60").data) = ((.ok ("a\x60b")), []) ∧
    (∀ s : List Char, noCloseQuote s = true →
      (readQuotableIdent ('\x60' :: s)).1 = .error .eof ∨
      ∃ found, (readQuotableIdent ('\x60' :: s)).1
        = .error (.unexpected ("\x60") found)) ∧
    (∀ s : List Char, noCloseQuote s = true → s.length < 2 →
      (readQuotableIdent ('\x60' :: s)).1 = .error .eof) ∧
    (∀ s : List Char, noCloseQuote s = true →
      (readQuotableIdent ('\x60' :: (s ++ ['\x60', '\x60']))).1 = .error .eof) := by
  refine ⟨by decide, ?_, ?_, ?_⟩
  · intro s h
    match s with
    | [] => exact Or.inl (by decide)
    | [c] => exact Or.inl rfl
    | c :: d :: rest =>
      by_cases hc : c = '\x60'
      · subst hc
        have hd : d = '\x60' := by
          by_contra hd
          rw [noCloseQuote, if_pos rfl, if_neg hd] at h
          exact Bool.false_ne_true h
        subst hd
        have hrest : noCloseQuote rest = true := by
          rw [noCloseQuote, if_pos rfl, if_pos rfl] at h
          exact h
        rcases readQuotedAux_noClose rest.length rest le_rfl
            (String.singleton '\x60') hrest with ⟨buf2, h2⟩ | ⟨buf2, c2, hc2, h2⟩
        · refine Or.inl ?_
          have h3 : readQuotedIdent ('\x60' :: '\x60' :: rest)
              = ((.ok (strLower buf2)), []) := by
            rw [readQuotedIdent,
              show readValidQuotedIdentRune ('\x60' :: '\x60' :: rest)
                = ((.ok '\x60'), rest) from rfl]
            simp only [h2]
          rw [readQuotableIdent]
          rw [if_pos rfl]
          rw [show expectQuote ('\x60' :: ('\x60' :: '\x60' :: rest))
              = (none, '\x60' :: '\x60' :: rest) from rfl]
          simp only [h3, show expectQuote ([] : List Char) = (some PErr.eof, []) from rfl]
        · refine Or.inr ⟨String.singleton c2, ?_⟩
          have h3 : readQuotedIdent ('\x60' :: '\x60' :: rest)
              = ((.ok (strLower buf2)), [c2]) := by
            rw [readQuotedIdent,
              show readValidQuotedIdentRune ('\x60' :: '\x60' :: rest)
                = ((.ok '\x60'), rest) from rfl]
            simp only [h2]
          have h4 : expectQuote [c2]
              = (some (.unexpected ("\x60") (String.singleton c2)), []) := by
            rw [expectQuote, if_neg hc2]
          rw [readQuotableIdent]
          rw [if_pos rfl]
          rw [show expectQuote ('\x60' :: ('\x60' :: '\x60' :: rest))
              = (none, '\x60' :: '\x60' :: rest) from rfl]
          simp only [h3, h4]
      · have hrest : noCloseQuote (d :: rest) = true := by
          rw [noCloseQuote, if_neg hc] at h
          exact h
        have h1 : readValidQuotedIdentRune (c :: d :: rest) = ((.ok c), d :: rest) := by
          rw [readValidQuotedIdentRune, if_neg hc]
        rcases readQuotedAux_noClose (d :: rest).length (d :: rest) le_rfl
            (String.singleton c) hrest with ⟨buf2, h2⟩ | ⟨buf2, c2, hc2, h2⟩
        · refine Or.inl ?_
          have h3 : readQuotedIdent (c :: d :: rest)
              = ((.ok (strLower buf2)), []) := by
            rw [readQuotedIdent, h1]
            simp only [h2]
          rw [readQuotableIdent]
          rw [if_pos rfl]
          rw [show expectQuote ('\x60' :: (c :: d :: rest))
              = (none, c :: d :: rest) from rfl]
          simp only [h3, show expectQuote ([] : List Char) = (some PErr.eof, []) from rfl]
        · refine Or.inr ⟨String.singleton c2, ?_⟩
          have h3 : readQuotedIdent (c :: d :: rest)
              = ((.ok (strLower buf2)), [c2]) := by
            rw [readQuotedIdent, h1]
            simp only [h2]
          have h4 : expectQuote [c2]
              = (some (.unexpected ("\x60") (String.singleton c2)), []) := by
            rw [expectQuote, if_neg hc2]
          rw [readQuotableIdent]
          rw [if_pos rfl]
          rw [show expectQuote ('\x60' :: (c :: d :: rest))
              = (none, c :: d :: rest) from rfl]
          simp only [h3, h4]
  · intro s h hlen
    match s with
    | [] => exact (by decide)
    | [c] => exact rfl
    | a :: b :: t => simp only [List.length_cons] at hlen; omega
  · intro s h
    match s with
    | [] => exact (by decide)
    | [c] =>
      have hc : c ≠ '\x60' := by simpa [noCloseQuote] using h
      have h1 : readValidQuotedIdentRune ([c] ++ ['\x60', '\x60'])
          = ((.ok c), ['\x60', '\x60']) := by
        rw [show ([c] ++ ['\x60', '\x60']) = c :: '\x60' :: ['\x60'] from rfl]
        rw [readValidQuotedIdentRune, if_neg hc]
      have h2 : readQuotedAux (String.singleton c) ['\x60', '\x60']
          = ((String.singleton c).push '\x60', []) := rfl
      have h3 : readQuotedIdent ([c] ++ ['\x60', '\x60'])
          = ((.ok (strLower ((String.singleton c).push '\x60'))), []) := by
        rw [readQuotedIdent, h1]
        simp only [h2]
      rw [readQuotableIdent]
      rw [if_pos rfl]
      rw [show expectQuote ('\x60' :: ([c] ++ ['\x60', '\x60']))
          = (none, [c] ++ ['\x60', '\x60']) from rfl]
      simp only [h3, show expectQuote ([] : List Char) = (some PErr.eof, []) from rfl]
    | c :: d :: rest =>
      by_cases hc : c = '\x60'
      · subst hc
        have hd : d = '\x60' := by
          by_contra hd
          rw [noCloseQuote, if_pos rfl, if_neg hd] at h
          exact Bool.false_ne_true h
        subst hd
        have hrest : noCloseQuote rest = true := by
          rw [noCloseQuote, if_pos rfl, if_pos rfl] at h
          exact h
        obtain ⟨buf2, h2⟩ := readQuotedAux_noClose_pair rest.length rest le_rfl
          (String.singleton '\x60') hrest
        have h1 : readValidQuotedIdentRune (('\x60' :: '\x60' :: rest) ++ ['\x60', '\x60'])
            = ((.ok '\x60'), rest ++ ['\x60', '\x60']) := rfl
        have h3 : readQuotedIdent (('\x60' :: '\x60' :: rest) ++ ['\x60', '\x60'])
            = ((.ok (strLower buf2)), []) := by
          rw [readQuotedIdent, h1]
          simp only [h2]
        rw [readQuotableIdent]
        rw [if_pos rfl]
        rw [show expectQuote ('\x60' :: (('\x60' :: '\x60' :: rest) ++ ['\x60', '\x60']))
            = (none, ('\x60' :: '\x60' :: rest) ++ ['\x60', '\x60']) from rfl]
        simp only [h3, show expectQuote ([] : List Char) = (some PErr.eof, []) from rfl]
      · have hrest : noCloseQuote (d :: rest) = true := by
          rw [noCloseQuote, if_neg hc] at h
          exact h
        obtain ⟨buf2, h2⟩ := readQuotedAux_noClose_pair (d :: rest).length (d :: rest) le_rfl
          (String.singleton c) hrest
        have h1 : readValidQuotedIdentRune ((c :: d :: rest) ++ ['\x60', '\x60'])
            = ((.ok c), (d :: rest) ++ ['\x60', '\x60']) := by
          rw [show ((c :: d :: rest) ++ ['\x60', '\x60'])
              = c :: d :: (rest ++ ['\x60', '\x60']) from rfl]
          rw [readValidQuotedIdentRune, if_neg hc, List.cons_append]
        have h3 : readQuotedIdent ((c :: d :: rest) ++ ['\x60', '\x60'])
            = ((.ok (strLower buf2)), []) := by
          rw [readQuotedIdent, h1]
          simp only [h2]
        rw [readQuotableIdent]
        rw [if_pos rfl]
        rw [show expectQuote ('\x60' :: ((c :: d :: rest) ++ ['\x60', '\x60']))
            = (none, (c :: d :: rest) ++ ['\x60', '\x60']) from rfl]
        simp only [h3, show expectQuote ([] : List Char) = (some PErr.eof, []) from rfl]

/-- Witness for C9: the never-succeeds clause at the body "xy" (where the
failure is the SyntaxError), the short-input clause at the one-character
body "a" (io.EOF), and the escaped-pair clause at the body "a" followed by
a doubled backtick (io.EOF). -/
theorem quoted_ident_witness :
    ((readQuotableIdent ('\x60' :: ("xy").data)).1 = .error .eof ∨
      ∃ found, (readQuotableIdent ('\x60' :: ("xy").data)).1
        = .error (.unexpected ("\x60") found)) ∧
    (readQuotableIdent ('\x60' :: ("a").data)).1 = .error .eof ∧
    (readQuotableIdent ('\x60' :: (("a").data ++ ['\x60', '\x60']))).1 = .error .eof :=
  ⟨quoted_ident_amended.2.1 (("xy").data) (by decide),
   quoted_ident_amended.2.2.1 (("a").data) (by decide) (by decide),
   quoted_ident_amended.2.2.2 (("a").data) (by decide)⟩

end Gms

